import Mathlib

set_option maxHeartbeats 1600000

/-!
Shallow embedding of the fireorm object-document mapper: the metadata
registry (`packages/fireorm/src/metadata-storage.ts`) and the query layer
(`packages/nest-fireorm/src/fireorm.decorators.ts`), together with an
executable model of the external Firestore client that the query layer
drives.  Definitions are translated from the TypeScript source; external
collaborators (Firestore, jsonwebtoken, class-transformer, uuid) are
modelled by executable stand-ins that follow their documented contracts.
-/

/-- Errors raised by the embedded code.  Each constructor models one of the
JavaScript `Error` values thrown by the source; the original message is
recorded in the constructor comment. -/
inductive FireErr where
  /-- message "CollectionNotFound" -/
  | collectionNotFound
  /-- message "IdPerpertyNotFound" (spelling as in the source) -/
  | idPropertyNotFound
  /-- a JavaScript `TypeError` with the given message -/
  | typeError (msg : String)
  /-- message "Invalid pagination token" -/
  | invalidPaginationToken
  /-- message "Entity not found, entity: <name>" -/
  | entityNotFound (entityName : String)
  /-- message "findByIds not support CollectionGroup" -/
  | findByIdsCollectionGroup
  /-- the Firestore client rejects `where` on an undefined field path -/
  | invalidFieldPath
  /-- pagination-driver only: iteration fuel exhausted (not a source error) -/
  | outOfFuel
deriving DecidableEq

/-- A JavaScript function value as the metadata records store them: either a
class constructor (identified by its name, compared by reference identity) or
a lazy arrow-function thunk returning the class with the given name.  Entity
classes (`EntitySchema` targets) and relation `type` fields are such values. -/
inductive FnVal where
  | cls (name : String)
  | thunk (ret : String)
deriving DecidableEq

/-- Calling a `FnVal` as a function, as JavaScript does for `type()`:
invoking a lazy thunk yields the class it returns, while invoking a class
constructor without `new` raises a `TypeError`. -/
def FnVal.call : FnVal → Except FireErr FnVal
  | .thunk r => .ok (.cls r)
  | .cls n => .error (.typeError ("Class constructor " ++ n ++ " cannot be invoked without new"))

/-- The `.name` property of a JavaScript function (used in the
entity-not-found message `target.name`). -/
def FnVal.jsName : FnVal → String
  | .cls n => n
  | .thunk _ => ""

/-! ### The fireorm metadata registry (`packages/fireorm/src/metadata-storage.ts`) -/

/-- Options of the `Collection` decorator; only `prefix` is read by the
registry (`options.prefix` in `getCollectionName`). -/
structure CollectionOptions where
  pfx : Option String := none
deriving DecidableEq

/-- `CollectionMetadataArgs` from the source. -/
structure CollectionMetadataArgs where
  name : String
  target : FnVal
  options : CollectionOptions
deriving DecidableEq

/-- An id-generation strategy: the source accepts the strings `"uuid/v1"`,
`"uuid/v4"`, `"auto"`, or a user-supplied generator function; a generator
function is modelled by the string it returns (the only thing the registry
does with it is call it). -/
inductive IdStrategy where
  | uuidV1
  | uuidV4
  | auto
  | custom (genResult : String)
deriving DecidableEq

/-- `IdPropertyMetadataArgs` from the source (the unused `options` field is
omitted). -/
structure IdPropertyMetadataArgs where
  target : FnVal
  propertyName : String
  strategy : IdStrategy
deriving DecidableEq

/-- `PropertyMetadataArgs` from the source (type and options are opaque to the
registry and omitted). -/
structure PropertyMetadataArgs where
  target : FnVal
  propertyName : String
deriving DecidableEq

/-- The process-wide `MetadataStorage` of `packages/fireorm`: plain growable
arrays of metadata entries. -/
structure MetadataStorage where
  collections : List CollectionMetadataArgs := []
  ids : List IdPropertyMetadataArgs := []
  properties : List PropertyMetadataArgs := []

/-- `MetadataStorage.getCollection`: find the collection entry whose target
is the given class, throwing `CollectionNotFound` when there is none. -/
def MetadataStorage.getCollection (s : MetadataStorage) (target : FnVal) :
    Except FireErr CollectionMetadataArgs :=
  match s.collections.find? (fun c => c.target == target) with
  | none => .error .collectionNotFound
  | some c => .ok c

/-- `MetadataStorage.getCollectionName`: like `getCollection` but returns
`(options.prefix ? options.prefix : '') + name` (an empty-string prefix is
falsy in JavaScript and yields `''` either way). -/
def MetadataStorage.getCollectionName (s : MetadataStorage) (target : FnVal) :
    Except FireErr String :=
  match s.collections.find? (fun c => c.target == target) with
  | none => .error .collectionNotFound
  | some c => .ok ((match c.options.pfx with
      | some p => if p = "" then "" else p
      | none => "") ++ c.name)

/-- `MetadataStorage.getProperties`. -/
def MetadataStorage.getProperties (s : MetadataStorage) (target : FnVal) :
    List PropertyMetadataArgs :=
  s.properties.filter (fun p => p.target == target)

/-- `MetadataStorage.getIdProp`: find the id entry whose target is the given
class, throwing `IdPerpertyNotFound` when there is none. -/
def MetadataStorage.getIdProp (s : MetadataStorage) (target : FnVal) :
    Except FireErr IdPropertyMetadataArgs :=
  match s.ids.find? (fun p => p.target == target) with
  | none => .error .idPropertyNotFound
  | some p => .ok p

/-- `MetadataStorage.getIdPropName`. -/
def MetadataStorage.getIdPropName (s : MetadataStorage) (target : FnVal) :
    Except FireErr String :=
  match s.getIdProp target with
  | .error e => .error e
  | .ok p => .ok p.propertyName

/-- Models the external `uuid/v1` package: some fresh version-1 uuid string. -/
def uuidV1Lib : Unit → String := fun _ => "uuid-v1"

/-- Models the external `uuid/v4` package: some fresh version-4 uuid string. -/
def uuidV4Lib : Unit → String := fun _ => "uuid-v4"

/-- `MetadataStorage.getIdGenerataValue` (name as in the source): dispatch on
the strategy; a function strategy is called, the uuid strategies call the
uuid packages, and `"auto"` falls through to `undefined` (modelled `none`). -/
def MetadataStorage.getIdGenerataValue (s : MetadataStorage) (target : FnVal) :
    Except FireErr (Option String) :=
  match s.getIdProp target with
  | .error e => .error e
  | .ok p =>
    match p.strategy with
    | .custom r => .ok (some r)
    | .uuidV1 => .ok (some (uuidV1Lib ()))
    | .uuidV4 => .ok (some (uuidV4Lib ()))
    | .auto => .ok none

/-- Decidable equality of `Except` results, used to evaluate the embedded
operations at concrete inputs. -/
instance {ε α : Type} [DecidableEq ε] [DecidableEq α] : DecidableEq (Except ε α)
  | .ok a, .ok b =>
    if h : a = b then .isTrue (by rw [h]) else .isFalse (by intro hh; cases hh; exact h rfl)
  | .error e, .error f =>
    if h : e = f then .isTrue (by rw [h]) else .isFalse (by intro hh; cases hh; exact h rfl)
  | .ok _, .error _ => .isFalse (by intro hh; cases hh)
  | .error _, .ok _ => .isFalse (by intro hh; cases hh)

/-- Modelled from the spec: the decorator code that registers id metadata is
not under `src/` (only the registry it writes to is).  Per the spec, entities
are "registered at class-definition time" into the process-wide registry and
"never mutated after startup"; registration appends the entry to the `ids`
array. -/
def MetadataStorage.registerId (s : MetadataStorage) (arg : IdPropertyMetadataArgs) :
    MetadataStorage :=
  { s with ids := s.ids ++ [arg] }

/-- A whole startup sequence of id registrations applied to the empty
registry. -/
def registerIds (args : List IdPropertyMetadataArgs) : MetadataStorage :=
  args.foldl MetadataStorage.registerId {}

/-! ### An executable model of the external Firestore client

The query layer under `packages/nest-fireorm` drives `@google-cloud/firestore`
through `collection`, `collectionGroup`, `doc`, `where`, `select`, `orderBy`,
`limit`, `offset`, cursor methods and `get`/`getAll`.  The spec treats the
database as an opaque external collaborator; the model below implements its
documented query semantics executably (filter, sort with the document id as
final tie-breaker, cursors, offset, limit, projection). -/

/-- A primitive Firestore field value.  `timestamp` carries a `toDate` method,
`date` is the JavaScript `Date` it converts to, `geoPoint` is the client's
`GeoPoint` class and `geoObj` the plain `{latitude, longitude}` object it is
converted to, and `docRef` is a `DocumentReference` split into its collection
path and document id. -/
inductive FsPrim where
  | str (s : String)
  | int (n : Int)
  | boolean (b : Bool)
  | nullv
  | timestamp (ms : Int)
  | date (ms : Int)
  | geoPoint (lat lon : Int)
  | geoObj (lat lon : Int)
  | docRef (collPath : String) (id : String)
deriving DecidableEq

/-- A value inside a result data object: a primitive field, or the nested
plain object / array of plain objects that `loadRelations` splices in for a
resolved relation. -/
inductive FsVal where
  | prim (p : FsPrim)
  | obj (fields : List (String × FsPrim))
  | arrObj (elems : List (List (String × FsPrim)))
deriving DecidableEq

/-- A plain JavaScript data object, as built from a document snapshot. -/
abbrev DataObject := List (String × FsVal)

/-- An entity as returned by the query layer (the result of
`transformToClass`). -/
abbrev Entity := DataObject

/-- A document stored in a collection. -/
structure FsDoc where
  id : String
  fields : List (String × FsPrim)
deriving DecidableEq

/-- The whole (unchanging) document store: collection paths mapped to their
documents. -/
structure Store where
  collections : List (String × List FsDoc)
deriving DecidableEq

/-- Documents of the collection at a path (empty when absent). -/
def Store.getColl (st : Store) (path : String) : List FsDoc :=
  ((st.collections.find? (fun c => c.1 == path)).map (fun c => c.2)).getD []

/-- A `DocumentSnapshot` of the client: its reference data plus the document
fields when it exists (`exists` is false and `data()` is undefined
otherwise). -/
structure DocumentSnapshot where
  collPath : String
  id : String
  fieldsOpt : Option (List (String × FsPrim))
deriving DecidableEq

/-- The snapshot's `exists` property. -/
def DocumentSnapshot.existsQ (s : DocumentSnapshot) : Bool := s.fieldsOpt.isSome

/-- The snapshot's `data()`, spread into an object (spreading `undefined`
contributes no fields). -/
def DocumentSnapshot.dataD (s : DocumentSnapshot) : List (String × FsPrim) := s.fieldsOpt.getD []

/-- Fetch a document by collection path and id (`collection(path).doc(id).get()`). -/
def Store.getDoc (st : Store) (path id : String) : DocumentSnapshot :=
  { collPath := path, id := id,
    fieldsOpt := ((st.getColl path).find? (fun d => d.id == id)).map (fun d => d.fields) }

/-- Split a character list at every slash (structural helper for slash
paths). -/
def splitSegsAux : List Char → List (List Char)
  | [] => [[]]
  | c :: rest =>
    let r := splitSegsAux rest
    if c = '/' then [] :: r
    else
      match r with
      | s :: tl => (c :: s) :: tl
      | [] => [[c]]

/-- Split a slash path into its segments. -/
def splitPath (p : String) : List String := (splitSegsAux p.data).map (fun l => ⟨l⟩)

/-- Join strings with a separator. -/
def joinWith (sep : String) : List String → String
  | [] => ""
  | [s] => s
  | s :: rest => s ++ sep ++ joinWith sep rest

/-- Fetch a document by a full slash-separated path (`DocumentReference.get()`
for the reference at that path). -/
def Store.getDocByPath (st : Store) (fullPath : String) : DocumentSnapshot :=
  let segs := splitPath fullPath
  st.getDoc (joinWith "/" segs.dropLast) (segs.getLastD "")

/-- JavaScript string coercion of a primitive value (object-valued primitives
coerce to the default object string; only the scalar cases are exercised on
the paths the source takes). -/
def jsPrimToString : FsPrim → String
  | .str s => s
  | .int n => toString n
  | .boolean b => if b then "true" else "false"
  | .nullv => "null"
  | _ => "[object Object]"

/-- JavaScript string coercion of a data-object value. -/
def jsValToString : FsVal → String
  | .prim p => jsPrimToString p
  | .obj _ => "[object Object]"
  | .arrObj es => joinWith "," (es.map (fun _ => "[object Object]"))

/-- `firestore.doc(path)`: a `DocumentReference` for a full slash path, split
into collection path and id. -/
def firestoreDoc (path : String) : FsPrim :=
  let segs := splitPath path
  .docRef (joinWith "/" segs.dropLast) (segs.getLastD "")

/-- A Firestore `where` operator (the source passes the condition's `type`
string straight through; the comparison operators are modelled). -/
inductive FsOp where
  | eq
  | ne
  | lt
  | le
  | gt
  | ge
deriving DecidableEq

/-- Three-way comparison of naturals (structural, kernel-evaluable). -/
def natCmp (a b : Nat) : Ordering :=
  if a < b then .lt else if b < a then .gt else .eq

/-- Three-way comparison of integers. -/
def intCmp (a b : Int) : Ordering :=
  if a < b then .lt else if b < a then .gt else .eq

/-- Three-way comparison of characters by code point. -/
def charCmp (a b : Char) : Ordering := natCmp a.toNat b.toNat

/-- Lexicographic three-way comparison of character lists. -/
def charsCmp : List Char → List Char → Ordering
  | [], [] => .eq
  | [], _ :: _ => .lt
  | _ :: _, [] => .gt
  | a :: as, b :: bs => (charCmp a b).then (charsCmp as bs)

/-- Lexicographic three-way comparison of strings. -/
def strCmp (a b : String) : Ordering := charsCmp a.data b.data

/-- Type rank of a value in the modelled cross-type order: Firestore orders
values first by type, then within the type. -/
def FsPrim.typeRank : FsPrim → Nat
  | .nullv => 0
  | .boolean _ => 1
  | .int _ => 2
  | .timestamp _ => 3
  | .date _ => 4
  | .str _ => 5
  | .geoPoint _ _ => 6
  | .geoObj _ _ => 7
  | .docRef _ _ => 8

/-- First numeric component of the sort key. -/
def FsPrim.keyNum1 : FsPrim → Int
  | .boolean b => if b then 1 else 0
  | .int n => n
  | .timestamp ms => ms
  | .date ms => ms
  | .geoPoint lat _ => lat
  | .geoObj lat _ => lat
  | _ => 0

/-- Second numeric component of the sort key. -/
def FsPrim.keyNum2 : FsPrim → Int
  | .geoPoint _ lon => lon
  | .geoObj _ lon => lon
  | _ => 0

/-- String component of the sort key. -/
def FsPrim.keyStr : FsPrim → String
  | .str s => s
  | .docRef c i => c ++ "/" ++ i
  | _ => ""

/-- Three-way comparison of primitive values in the modelled Firestore
order: by type rank, then by the numeric components, then by the string
component. -/
def primCmp (a b : FsPrim) : Ordering :=
  (natCmp a.typeRank b.typeRank).then
    ((intCmp a.keyNum1 b.keyNum1).then
      ((intCmp a.keyNum2 b.keyNum2).then (strCmp a.keyStr b.keyStr)))

/-- Evaluate a `where` operator against a document value and the condition
value. -/
def FsOp.eval (op : FsOp) (docVal condVal : FsPrim) : Bool :=
  match op, primCmp docVal condVal with
  | .eq, .eq => true
  | .eq, _ => false
  | .ne, .eq => false
  | .ne, _ => true
  | .lt, .lt => true
  | .lt, _ => false
  | .le, .lt => true
  | .le, .eq => true
  | .le, _ => false
  | .gt, .gt => true
  | .gt, _ => false
  | .ge, .gt => true
  | .ge, .eq => true
  | .ge, _ => false

/-- One `where` clause of a query. -/
structure WhereClause where
  fieldPath : String
  op : FsOp
  value : FsPrim
deriving DecidableEq

/-- A clause holds of a document when the field is present and the operator
accepts its value (documents lacking the field match no filter). -/
def evalClause (d : FsDoc) (w : WhereClause) : Bool :=
  match d.fields.find? (fun kv => kv.1 == w.fieldPath) with
  | none => false
  | some kv => w.op.eval kv.2 w.value

/-- The root of a query: a single collection or a collection group. -/
inductive QuerySource where
  | collection (path : String)
  | group (collectionId : String)
deriving DecidableEq

/-- An accumulated client `Query`: the fluent builder methods of the client
append to or replace these components.  A later `startAt`/`startAfter`
replaces the start cursor (and likewise for the end cursor), as in the
client. -/
structure FsQuery where
  source : QuerySource
  wheres : List WhereClause := []
  selectFields : Option (List String) := none
  orders : List (String × Bool) := []
  limitN : Option Nat := none
  offsetN : Nat := 0
  startC : Option (DocumentSnapshot × Bool) := none
  endC : Option (DocumentSnapshot × Bool) := none
deriving DecidableEq

/-- `Query.where`. -/
def FsQuery.whereQ (q : FsQuery) (f : String) (op : FsOp) (v : FsPrim) : FsQuery :=
  { q with wheres := q.wheres ++ [⟨f, op, v⟩] }

/-- `Query.select`. -/
def FsQuery.selectQ (q : FsQuery) (fs : List String) : FsQuery :=
  { q with selectFields := some fs }

/-- `Query.orderBy` (the flag is true for descending). -/
def FsQuery.orderByQ (q : FsQuery) (f : String) (desc : Bool) : FsQuery :=
  { q with orders := q.orders ++ [(f, desc)] }

/-- `Query.limit`. -/
def FsQuery.limitQ (q : FsQuery) (n : Nat) : FsQuery := { q with limitN := some n }

/-- `Query.offset`. -/
def FsQuery.offsetQ (q : FsQuery) (n : Nat) : FsQuery := { q with offsetN := n }

/-- `Query.startAfter` with a document snapshot cursor (exclusive). -/
def FsQuery.startAfterQ (q : FsQuery) (s : DocumentSnapshot) : FsQuery :=
  { q with startC := some (s, false) }

/-- `Query.startAt` (inclusive). -/
def FsQuery.startAtQ (q : FsQuery) (s : DocumentSnapshot) : FsQuery :=
  { q with startC := some (s, true) }

/-- `Query.endBefore` (exclusive). -/
def FsQuery.endBeforeQ (q : FsQuery) (s : DocumentSnapshot) : FsQuery :=
  { q with endC := some (s, false) }

/-- `Query.endAt` (inclusive). -/
def FsQuery.endAtQ (q : FsQuery) (s : DocumentSnapshot) : FsQuery :=
  { q with endC := some (s, true) }

/-- What a sort key is computed from: the fields and the id of a document or
of a cursor snapshot. -/
abbrev KeySrc := (List (String × FsPrim)) × String

/-- The value an ordered field contributes to the sort key (missing fields
sort as null). -/
def fieldVal (f : String) (x : KeySrc) : FsPrim :=
  ((x.1.find? (fun kv => kv.1 == f)).map (fun kv => kv.2)).getD .nullv

/-- Chain a list of three-way comparators lexicographically. -/
def chainCmp {α : Type} : List (α → α → Ordering) → α → α → Ordering
  | [], _, _ => .eq
  | c :: cs, a, b => (c a b).then (chainCmp cs a b)

/-- The comparators induced by an `orderBy` list: one per ordered field
(argument-swapped when descending), then the implicit tie-break on the
document id, which Firestore always appends. -/
def orderComps (orders : List (String × Bool)) : List (KeySrc → KeySrc → Ordering) :=
  (orders.map (fun ob => fun a b =>
    if ob.2 then primCmp (fieldVal ob.1 b) (fieldVal ob.1 a)
    else primCmp (fieldVal ob.1 a) (fieldVal ob.1 b)))
  ++ [fun a b => strCmp a.2 b.2]

/-- Full three-way comparison of two key sources under an `orderBy` list. -/
def entryCmp (orders : List (String × Bool)) (a b : KeySrc) : Ordering :=
  chainCmp (orderComps orders) a b

/-- Key source of a stored document (paired with its collection path). -/
def docKeySrc (pd : String × FsDoc) : KeySrc := (pd.2.fields, pd.2.id)

/-- Key source of a cursor snapshot. -/
def snapKeySrc (s : DocumentSnapshot) : KeySrc := (s.dataD, s.id)

/-- The not-greater relation the query sorts by. -/
abbrev sortLE (orders : List (String × Bool)) (a b : String × FsDoc) : Prop :=
  entryCmp orders (docKeySrc a) (docKeySrc b) ≠ .gt

/-- Last segment of a slash path. -/
def lastSegment (path : String) : String := (splitPath path).getLastD ""

/-- The documents a query source ranges over, each paired with its collection
path; a collection group collects every collection whose last path segment is
the group id. -/
def Store.sourceDocs (st : Store) : QuerySource → List (String × FsDoc)
  | .collection p => (st.getColl p).map (fun d => (p, d))
  | .group cid => (st.collections.filter (fun c => lastSegment c.1 == cid)).foldr
      (fun c acc => c.2.map (fun d => (c.1, d)) ++ acc) []

/-- Whether a document is kept by a start cursor, from the comparison of the
cursor key with the document key. -/
def startKeep (incl : Bool) : Ordering → Bool
  | .lt => true
  | .eq => incl
  | .gt => false

/-- Whether a document is kept by an end cursor. -/
def endKeep (incl : Bool) : Ordering → Bool
  | .gt => true
  | .eq => incl
  | .lt => false

/-- Field projection of a `select` mask (no mask keeps all fields). -/
def projectFields (sel : Option (List String)) (fs : List (String × FsPrim)) :
    List (String × FsPrim) :=
  match sel with
  | none => fs
  | some names => fs.filter (fun kv => names.any (fun n => n == kv.1))

/-- Execute a query against the store: filter by the `where` clauses, sort by
the `orderBy` list with the id tie-break, apply the cursors, offset and
limit, and project the selected fields into result snapshots. -/
def runQuery (st : Store) (q : FsQuery) : List DocumentSnapshot :=
  let filtered := (st.sourceDocs q.source).filter
    (fun pd => q.wheres.all (fun w => evalClause pd.2 w))
  let sorted := filtered.insertionSort (sortLE q.orders)
  let s1 := match q.startC with
    | some c => sorted.filter
        (fun pd => startKeep c.2 (entryCmp q.orders (snapKeySrc c.1) (docKeySrc pd)))
    | none => sorted
  let s2 := match q.endC with
    | some c => s1.filter
        (fun pd => endKeep c.2 (entryCmp q.orders (snapKeySrc c.1) (docKeySrc pd)))
    | none => s1
  let s3 := s2.drop q.offsetN
  let s4 := match q.limitN with
    | some n => s3.take n
    | none => s3
  s4.map (fun pd =>
    { collPath := pd.1, id := pd.2.id,
      fieldsOpt := some (projectFields q.selectFields pd.2.fields) })

/-! ### The nest-fireorm query layer (`packages/nest-fireorm/src/fireorm.decorators.ts`) -/

/-- Relation metadata entry of the nest-fireorm registry: target class,
property name, relation type string, laziness flag, the registered `type`
value (a lazy thunk, invoked as `type()` where the source does so) and the
`inverseSide` field name used by one-to-many queries. -/
structure NestRelationMetadataArgs where
  target : FnVal
  propertyName : String
  relationType : String
  lazy : Bool
  type : FnVal
  inverseSide : Option String
deriving DecidableEq

/-- Modelled from the spec: `fireorm.decorators.ts` imports its
`MetadataStorage` from `../metadata-storage` inside `packages/nest-fireorm`,
a file that is not under `src/`.  Per the spec it is the decorator-populated
process-wide registry keyed by the class reference — collection paths, id
property names and relation metadata — whose lookups throw the
missing-metadata errors of the spec's error-handling section. -/
structure NestMetadataStorage where
  collections : List (FnVal × String) := []
  ids : List (FnVal × String) := []
  relations : List NestRelationMetadataArgs := []
deriving DecidableEq

/-- Modelled from the spec: `getCollectionPath` resolves the collection path
registered for a class, throwing the missing-collection error when the class
is not registered. -/
def NestMetadataStorage.getCollectionPath (m : NestMetadataStorage) (target : FnVal) :
    Except FireErr String :=
  match m.collections.find? (fun c => c.1 == target) with
  | none => .error .collectionNotFound
  | some c => .ok c.2

/-- Modelled from the spec: `getIdPropName` resolves the id property name
registered for a class, throwing the missing-id error when absent. -/
def NestMetadataStorage.getIdPropName (m : NestMetadataStorage) (target : FnVal) :
    Except FireErr String :=
  match m.ids.find? (fun c => c.1 == target) with
  | none => .error .idPropertyNotFound
  | some c => .ok c.2

/-- Per-value step of `convertToJsObject` (lines 66-82): a truthy value with
`toDate` is converted to its date, a `GeoPoint` to the plain
latitude/longitude object, a `DocumentReference` to its id string; all other
values (including falsy ones, returned early) are unchanged. -/
def convPrim : FsPrim → FsPrim
  | .timestamp ms => .date ms
  | .geoPoint lat lon => .geoObj lat lon
  | .docRef _ i => .str i
  | p => p

/-- `convertToJsObject` recursion into a nested value: nested plain objects
and arrays get the same per-key conversion. -/
def convVal : FsVal → FsVal
  | .prim p => .prim (convPrim p)
  | .obj fs => .obj (fs.map (fun kv => (kv.1, convPrim kv.2)))
  | .arrObj es => .arrObj (es.map (fun fs => fs.map (fun kv => (kv.1, convPrim kv.2))))

/-- `convertToJsObject` applied to a result data object. -/
def convertToJsObject (d : DataObject) : DataObject :=
  d.map (fun kv => (kv.1, convVal kv.2))

/-- `transformToClass`: `plainToClass(target, this.convertToJsObject(obj))`.
The external class-transformer constructs an instance of the class carrying
the same data and is modelled as the identity on the converted plain
object. -/
def transformToClass (_target : FnVal) (d : DataObject) : Entity :=
  convertToJsObject d

/-- JavaScript property assignment `obj[k] = v` on a data object: replace in
place when present, append otherwise. -/
def setField (fs : DataObject) (k : String) (v : FsVal) : DataObject :=
  if fs.any (fun kv => kv.1 == k) then fs.map (fun kv => if kv.1 == k then (kv.1, v) else kv)
  else fs ++ [(k, v)]

/-- JavaScript property read `obj[k]` (also `dot.pick` for the single-level
relation names the source declares). -/
def lookupF (fs : DataObject) (k : String) : Option FsVal :=
  (fs.find? (fun kv => kv.1 == k)).map (fun kv => kv.2)

/-- The object `{...doc.data(), [idPropName]: doc.id}` built for every result
document (line 124). -/
def mkData (idPropName : String) (s : DocumentSnapshot) : DataObject :=
  setField (s.dataD.map (fun kv => (kv.1, FsVal.prim kv.2))) idPropName (.prim (.str s.id))

/-- JavaScript truthiness of an optional string option (absent or empty is
falsy). -/
def strTruthy : Option String → Bool
  | some s => if s = "" then false else true
  | none => false

/-- `CollectionQueryOption`: the transaction member only redirects reads
through `tnx.get`/`tnx.getAll`, which read the same unchanging store here, so
it is not represented. -/
structure CollectionQueryOption where
  collectionId : Option String := none
  parentPath : Option String := none
deriving DecidableEq

/-- The `CollectionQuery` façade: its construction-time options. -/
structure CollectionQuery where
  options : CollectionQueryOption := {}
deriving DecidableEq

/-- A value of one `where` condition: either a plain value or a
`{type, value}` operator object. -/
inductive FindCondValue where
  | val (v : FsPrim)
  | cond (op : FsOp) (v : FsPrim)
deriving DecidableEq

/-- `FindConditions`: field paths with condition values, in key order. -/
abbrev FindConditions := List (String × FindCondValue)

/-- The `instanceof DocumentReference` test on a condition value. -/
def FindCondValue.isDocRef : FindCondValue → Bool
  | .val (.docRef _ _) => true
  | _ => false

/-- JavaScript string coercion of a condition value (an operator object
coerces to the default object string). -/
def FindCondValue.toStringJs : FindCondValue → String
  | .val v => jsPrimToString v
  | .cond _ _ => "[object Object]"

/-- `FindManyOptions` (the fields the source reads). -/
structure FindManyOptions where
  whereC : Option FindConditions := none
  selectF : Option (List String) := none
  order : Option (List (String × Bool)) := none
  limit : Option Nat := none
  offset : Option Nat := none
  startAfter : Option DocumentSnapshot := none
  startAt : Option DocumentSnapshot := none
  endBefore : Option DocumentSnapshot := none
  endAt : Option DocumentSnapshot := none
  relations : Option (List String) := none
deriving DecidableEq

/-- `FindOneOptions` (no limit or offset). -/
structure FindOneOptions where
  whereC : Option FindConditions := none
  selectF : Option (List String) := none
  order : Option (List (String × Bool)) := none
  startAfter : Option DocumentSnapshot := none
  startAt : Option DocumentSnapshot := none
  endBefore : Option DocumentSnapshot := none
  endAt : Option DocumentSnapshot := none
  relations : Option (List String) := none
deriving DecidableEq

/-- The `optionsOrConditions` argument of `find`/`findAndToken`:
`FindOptionsUtils.isFindManyOptions` distinguishes an options object from a
bare conditions object, and an absent argument is falsy. -/
inductive FindManyArg where
  | options (o : FindManyOptions)
  | conditions (c : FindConditions)
  | noArg
deriving DecidableEq

/-- The `optionsOrConditions` argument of `findOne`. -/
inductive FindOneArg where
  | options (o : FindOneOptions)
  | conditions (c : FindConditions)
  | noArg
deriving DecidableEq

/-- `getFindConditionsFromFindManyOptions` (lines 38-46). -/
def getFindConditionsFromFindManyOptions : FindManyArg → Option FindConditions
  | .noArg => none
  | .options o => o.whereC
  | .conditions c => some c

/-- `getFindConditionsFromFindOneOptions` (lines 48-56). -/
def getFindConditionsFromFindOneOptions : FindOneArg → Option FindConditions
  | .noArg => none
  | .options o => o.whereC
  | .conditions c => some c

/-- `getQuery` (lines 192-201): a collection-group query when `collectionId`
is truthy, the parent-path collection when `parentPath` is truthy, otherwise
the collection registered for the target. -/
def CollectionQuery.getQuery (cq : CollectionQuery) (meta : NestMetadataStorage)
    (target : FnVal) : Except FireErr FsQuery :=
  if strTruthy cq.options.collectionId then
    .ok { source := .group (cq.options.collectionId.getD "") }
  else if strTruthy cq.options.parentPath then
    .ok { source := .collection (cq.options.parentPath.getD "") }
  else
    match meta.getCollectionPath target with
    | .error e => .error e
    | .ok cp => .ok { source := .collection cp }

/-- The clause a non-relation condition entry contributes: its operator for a
`{type, value}` object, equality otherwise. -/
def clauseOfCond (fc : String × FindCondValue) : WhereClause :=
  match fc.2 with
  | .val v => ⟨fc.1, .eq, v⟩
  | .cond op v => ⟨fc.1, op, v⟩

/-- The clauses an optional `where` contributes when no field names a
relation. -/
def clausesOf : Option FindConditions → List WhereClause
  | none => []
  | some w => w.map clauseOfCond

/-- The non-relation `where` branches shared by `find` and `findOne`: a
`{type, value}` object contributes its operator, any other value an equality
clause. -/
def plainWhere (q : FsQuery) (f : String) : FindCondValue → FsQuery
  | .cond op v => q.whereQ f op v
  | .val v => q.whereQ f .eq v

/-- The `where` loop of `find` (lines 221-237): a field naming a declared
relation whose value is not a `DocumentReference` takes the relation branch,
passing the registered `type` value to `getCollectionPath` WITHOUT invoking
it (line 227 reads `relationMetadata.type`, not `relationMetadata.type()`);
otherwise the plain branches apply. -/
def findWhereStep (meta : NestMetadataStorage) (target : FnVal) (q : FsQuery)
    (fc : String × FindCondValue) : Except FireErr FsQuery :=
  match (meta.relations.filter (fun r => r.target == target)).find?
      (fun r => r.propertyName == fc.1) with
  | some rm =>
    if fc.2.isDocRef then .ok (plainWhere q fc.1 fc.2)
    else
      match meta.getCollectionPath rm.type with
      | .error e => .error e
      | .ok rcp => .ok (q.whereQ fc.1 .eq (firestoreDoc (rcp ++ "/" ++ fc.2.toStringJs)))
  | none => .ok (plainWhere q fc.1 fc.2)

/-- The `Object.keys(where).forEach` loop of `find`, one step per condition
entry. -/
def applyWheresFind (meta : NestMetadataStorage) (target : FnVal) :
    FindConditions → FsQuery → Except FireErr FsQuery
  | [], q => .ok q
  | fc :: w, q =>
    match findWhereStep meta target q fc with
    | .error e => .error e
    | .ok q2 => applyWheresFind meta target w q2

/-- The `where` loop of `findOne` (lines 336-352): a field naming a declared
relation always takes the relation branch, and the registered `type` thunk IS
invoked (`relationMetadata.type()`, line 342) before resolving the collection
path. -/
def findOneWhereStep (meta : NestMetadataStorage) (target : FnVal) (q : FsQuery)
    (fc : String × FindCondValue) : Except FireErr FsQuery :=
  match (meta.relations.filter (fun r => r.target == target)).find?
      (fun r => r.propertyName == fc.1) with
  | some rm =>
    match rm.type.call with
    | .error e => .error e
    | .ok rt =>
      match meta.getCollectionPath rt with
      | .error e => .error e
      | .ok rcp => .ok (q.whereQ fc.1 .eq (firestoreDoc (rcp ++ "/" ++ fc.2.toStringJs)))
  | none => .ok (plainWhere q fc.1 fc.2)

/-- The `Object.keys(where).forEach` loop of `findOne`, one step per
condition entry. -/
def applyWheresFindOne (meta : NestMetadataStorage) (target : FnVal) :
    FindConditions → FsQuery → Except FireErr FsQuery
  | [], q => .ok q
  | fc :: w, q =>
    match findOneWhereStep meta target q fc with
    | .error e => .error e
    | .ok q2 => applyWheresFindOne meta target w q2

/-- Option application of `find` (lines 240-261), in source order: select,
order, limit, offset, startAfter, startAt, endBefore, endAt, relations.
Numeric options are JavaScript-falsy at 0 and skipped. -/
def applyFindManyOptions (arg : FindManyArg) (q : FsQuery) : FsQuery × List String :=
  match arg with
  | .options o =>
    let q := match o.selectF with | some sel => q.selectQ sel | none => q
    let q := match o.order with
      | some ord => ord.foldl (fun q fb => q.orderByQ fb.1 fb.2) q
      | none => q
    let q := match o.limit with | some n => if n = 0 then q else q.limitQ n | none => q
    let q := match o.offset with | some n => if n = 0 then q else q.offsetQ n | none => q
    let q := match o.startAfter with | some s => q.startAfterQ s | none => q
    let q := match o.startAt with | some s => q.startAtQ s | none => q
    let q := match o.endBefore with | some s => q.endBeforeQ s | none => q
    let q := match o.endAt with | some s => q.endAtQ s | none => q
    (q, match o.relations with | some r => r | none => [])
  | _ => (q, [])

/-- Option application of `findOne` (lines 355-372), in source order: select,
startAfter, startAt, endBefore, endAt, relations, order. -/
def applyFindOneOptions (arg : FindOneArg) (q : FsQuery) : FsQuery × List String :=
  match arg with
  | .options o =>
    let q := match o.selectF with | some sel => q.selectQ sel | none => q
    let q := match o.startAfter with | some s => q.startAfterQ s | none => q
    let q := match o.startAt with | some s => q.startAtQ s | none => q
    let q := match o.endBefore with | some s => q.endBeforeQ s | none => q
    let q := match o.endAt with | some s => q.endAtQ s | none => q
    let rels := match o.relations with | some r => r | none => []
    let q := match o.order with
      | some ord => ord.foldl (fun q fb => q.orderByQ fb.1 fb.2) q
      | none => q
    (q, rels)
  | _ => (q, [])

/-- A pending fetch in `relationDocCache`: a document get for a many-to-one
reference or a query get for a one-to-many inverse query. -/
inductive FetchResult where
  | docSnap (s : DocumentSnapshot)
  | querySnap (ss : List DocumentSnapshot)
deriving DecidableEq

/-- The accumulating state of `loadRelations` while mapping over documents:
`relationDocMapping` (an array of per-document relation-to-path objects,
grown only by `push`) and `relationDocCache` (path-keyed, in insertion
order). -/
structure RelState where
  mapping : List (List (String × String))
  cache : List (String × FetchResult)
deriving DecidableEq

/-- JavaScript assignment `obj[k] = v` on a relation-to-path object. -/
def assocSet (fs : List (String × String)) (k v : String) : List (String × String) :=
  if fs.any (fun kv => kv.1 == k) then fs.map (fun kv => if kv.1 == k then (kv.1, v) else kv)
  else fs ++ [(k, v)]

/-- One iteration of the `relations.forEach` body of `loadRelations` (lines
129-157) for one result document.  `push` appends at the END of the mapping
array even when `index` lies beyond it, so the subsequent write
`relationDocMapping[index][relation] = …` raises a `TypeError` whenever the
slot at `index` is still undefined — which happens exactly when some earlier
document contributed no slot (a missing document is skipped entirely). -/
def processRelation (meta : NestMetadataStorage) (st : Store) (target : FnVal)
    (collectionPath idPropName : String) (data : DataObject) (index : Nat)
    (relation : String) (stt : RelState) : Except FireErr RelState :=
  let relationMetadataArgs := meta.relations.filter (fun r => r.target == target)
  match relationMetadataArgs.find? (fun r => r.propertyName == relation) with
  | some rm =>
    if rm.relationType = "many-to-one" then
      let m1 := if index < stt.mapping.length then stt.mapping else stt.mapping ++ [[]]
      match lookupF data relation with
      | some (.prim (.docRef c i)) =>
        let fpath := c ++ "/" ++ i
        if index < m1.length then
          let m2 := m1.set index (assocSet ((m1.get? index).getD []) relation fpath)
          let c2 := if (stt.cache.find? (fun kv => kv.1 == fpath)).isSome then stt.cache
            else stt.cache ++ [(fpath, .docSnap (st.getDocByPath fpath))]
          .ok ⟨m2, c2⟩
        else .error (.typeError "Cannot set properties of undefined")
      | _ => .ok ⟨m1, stt.cache⟩
    else if rm.relationType = "one-to-many" then
      match rm.type.call with
      | .error e => .error e
      | .ok rt =>
        match meta.getCollectionPath rt with
        | .error e => .error e
        | .ok relationCollectionPath =>
          let documentPath := collectionPath ++ "/" ++
            jsValToString ((lookupF data idPropName).getD (.prim .nullv))
          let m1 := if index < stt.mapping.length then stt.mapping else stt.mapping ++ [[]]
          if index < m1.length then
            let m2 := m1.set index (assocSet ((m1.get? index).getD []) relation documentPath)
            if (stt.cache.find? (fun kv => kv.1 == documentPath)).isSome then .ok ⟨m2, stt.cache⟩
            else
              match rm.inverseSide with
              | none => .error .invalidFieldPath
              | some inv =>
                .ok ⟨m2, stt.cache ++ [(documentPath, .querySnap (runQuery st
                  { source := .collection relationCollectionPath,
                    wheres := [⟨inv, .eq, firestoreDoc documentPath⟩] }))]⟩
          else .error (.typeError "Cannot set properties of undefined")
    else .ok stt
  | none => .ok stt

/-- All declared relations processed for one document, left to right. -/
def processRelations (meta : NestMetadataStorage) (st : Store) (target : FnVal)
    (collectionPath idPropName : String) (data : DataObject) (index : Nat) :
    List String → RelState → Except FireErr RelState
  | [], stt => .ok stt
  | r :: rs, stt =>
    match processRelation meta st target collectionPath idPropName data index r stt with
    | .error e => .error e
    | .ok stt2 => processRelations meta st target collectionPath idPropName data index rs stt2

/-- The `docs.map((doc, index) => …)` phase of `loadRelations` (lines
122-160): a missing document maps to null without touching the state, an
existing one builds its data object and, when relations were requested, runs
the relation loop. -/
def processDocs (meta : NestMetadataStorage) (st : Store) (target : FnVal)
    (collectionPath idPropName : String) (relations : List String) :
    List (Option DocumentSnapshot) → Nat → RelState →
    Except FireErr (List (Option DataObject) × RelState)
  | [], _, stt => .ok ([], stt)
  | d :: ds, index, stt =>
    match d with
    | none =>
      match processDocs meta st target collectionPath idPropName relations ds (index+1) stt with
      | .error e => .error e
      | .ok (rest, stt2) => .ok (none :: rest, stt2)
    | some doc =>
      let data := mkData idPropName doc
      let res := if relations.length > 0 then
          processRelations meta st target collectionPath idPropName data index relations stt
        else .ok stt
      match res with
      | .error e => .error e
      | .ok stt2 =>
        match processDocs meta st target collectionPath idPropName relations ds (index+1) stt2 with
        | .error e => .error e
        | .ok (rest, stt3) => .ok (some data :: rest, stt3)

/-- `relationCacheData` (lines 163-177): each resolved cache entry reduced to
plain data.  A document fetch contributes its spread data exactly when the
document exists — the client materialises existing documents as
`QueryDocumentSnapshot`, the constructor name the reduce matches on — and a
query fetch contributes the array of its documents' data. -/
def buildCacheData (cache : List (String × FetchResult)) : List (String × FsVal) :=
  cache.foldl (fun acc kv =>
    match kv.2 with
    | .docSnap s => if s.existsQ then acc ++ [(kv.1, .obj s.dataD)] else acc
    | .querySnap ss => acc ++ [(kv.1, .arrObj (ss.map DocumentSnapshot.dataD))]) []

/-- The splice loop (lines 179-184): `dot.dot(relationDocMapping)` enumerates
`index.relation ↦ path` entries in index-then-insertion order, and each entry
whose path resolved in the cache is written back into
`datas[index][relation]` by `dot.set`. -/
def spliceRelations (cacheData : List (String × FsVal))
    (mapping : List (List (String × String))) (datas : List (Option DataObject)) :
    List (Option DataObject) :=
  mapping.enum.foldl (fun ds islot =>
    islot.2.foldl (fun ds rp =>
      match (cacheData.find? (fun kv => kv.1 == rp.2)).map (fun kv => kv.2) with
      | some v => ds.set islot.1 (((ds.get? islot.1).getD none).map (fun d => setField d rp.1 v))
      | none => ds) ds) datas

/-- `loadRelations` (lines 113-190). -/
def CollectionQuery.loadRelations (meta : NestMetadataStorage) (st : Store) (target : FnVal)
    (docs : List (Option DocumentSnapshot)) (relations : List String) :
    Except FireErr (List (Option Entity)) :=
  match meta.getIdPropName target with
  | .error e => .error e
  | .ok idPropName =>
    match meta.getCollectionPath target with
    | .error e => .error e
    | .ok collectionPath =>
      match processDocs meta st target collectionPath idPropName relations docs 0 ⟨[], []⟩ with
      | .error e => .error e
      | .ok (datas, stt) =>
        let datas2 := if stt.mapping.length ≠ 0 then
            spliceRelations (buildCacheData stt.cache) stt.mapping datas
          else datas
        .ok (datas2.map (Option.map (transformToClass target)))

/-- `find` (lines 212-265). -/
def CollectionQuery.find (cq : CollectionQuery) (meta : NestMetadataStorage) (st : Store)
    (target : FnVal) (arg : FindManyArg) : Except FireErr (List (Option Entity)) :=
  match cq.getQuery meta target with
  | .error e => .error e
  | .ok q0 =>
    let qres := match getFindConditionsFromFindManyOptions arg with
      | some w => applyWheresFind meta target w q0
      | none => .ok q0
    match qres with
    | .error e => .error e
    | .ok q1 =>
      let (q2, relations) := applyFindManyOptions arg q1
      let querySnapshot := runQuery st q2
      CollectionQuery.loadRelations meta st target (querySnapshot.map some) relations

/-- `findOne` (lines 327-379): builds its query like `find` but through its
own relation branch, applies `limit(1)` at the end, and resolves `undefined`
when no document matched. -/
def CollectionQuery.findOne (cq : CollectionQuery) (meta : NestMetadataStorage) (st : Store)
    (target : FnVal) (arg : FindOneArg) : Except FireErr (Option (Option Entity)) :=
  match cq.getQuery meta target with
  | .error e => .error e
  | .ok q0 =>
    let qres := match getFindConditionsFromFindOneOptions arg with
      | some w => applyWheresFindOne meta target w q0
      | none => .ok q0
    match qres with
    | .error e => .error e
    | .ok q1 =>
      let (q2, relations) := applyFindOneOptions arg q1
      let docs := runQuery st (q2.limitQ 1)
      match docs with
      | [] => .ok none
      | d :: _ =>
        if d.existsQ then
          match CollectionQuery.loadRelations meta st target (docs.map some) relations with
          | .error e => .error e
          | .ok entities =>
            match entities with
            | e :: _ => .ok (some e)
            | [] => .ok none
        else .ok none

/-- `findOneOrFail` (lines 381-393): reject with the entity-not-found error
exactly on an `undefined` resolution of `findOne`, pass every other outcome
through. -/
def CollectionQuery.findOneOrFail (cq : CollectionQuery) (meta : NestMetadataStorage)
    (st : Store) (target : FnVal) (arg : FindOneArg) : Except FireErr (Option Entity) :=
  match CollectionQuery.findOne cq meta st target arg with
  | .error e => .error e
  | .ok none => .error (.entityNotFound target.jsName)
  | .ok (some v) => .ok v

/-- The `idOrIds` argument of `findByIds`. -/
inductive IdOrIds where
  | one (id : String)
  | many (ids : List String)
deriving DecidableEq

/-- The value `findByIds` resolves with: `undefined`, a single entity or
null, or an array of entities and nulls. -/
inductive FindByIdsReturn where
  | undefJs
  | single (e : Option Entity)
  | multiple (es : List (Option Entity))
deriving DecidableEq

/-- `findByIds` (lines 395-437). -/
def CollectionQuery.findByIds (cq : CollectionQuery) (meta : NestMetadataStorage) (st : Store)
    (target : FnVal) (idOrIds : IdOrIds) (options : Option FindOneOptions) :
    Except FireErr FindByIdsReturn :=
  if strTruthy cq.options.collectionId then .error .findByIdsCollectionGroup
  else
    let cpRes : Except FireErr String :=
      if strTruthy cq.options.parentPath then .ok (cq.options.parentPath.getD "")
      else meta.getCollectionPath target
    match cpRes with
    | .error e => .error e
    | .ok collectionPath =>
      let ids := match idOrIds with | .many l => l | .one i => [i]
      let docSnapshots := ids.map (fun i => st.getDoc collectionPath i)
      let filterSnapShot := docSnapshots.map (fun v => if v.existsQ then some v else none)
      let rels := match options with
        | some o => match o.relations with | some r => r | none => []
        | none => []
      match idOrIds with
      | .many _ =>
        match CollectionQuery.loadRelations meta st target filterSnapShot rels with
        | .error e => .error e
        | .ok es => .ok (.multiple es)
      | .one _ =>
        if filterSnapShot.length = 0 then .ok .undefJs
        else
          match CollectionQuery.loadRelations meta st target filterSnapShot rels with
          | .error e => .error e
          | .ok es =>
            match es with
            | e :: _ => .ok (.single e)
            | [] => .ok .undefJs

/-- The payload `jsonwebtoken.sign` serialises: the retained query shape plus
the last document id. -/
structure TokenPayload where
  whereC : Option FindConditions := none
  selectF : Option (List String) := none
  order : Option (List (String × Bool)) := none
  limit : Option Nat := none
  lastDocumentId : Option String := none
deriving DecidableEq

/-- A token produced by the external `jsonwebtoken` library: the payload
together with the secret it was signed with. -/
structure SignedToken where
  payload : TokenPayload
  secret : String
deriving DecidableEq

/-- `jsonwebtoken.sign(payload, secret)`. -/
def jsonwebtokenSign (p : TokenPayload) (secret : String) : SignedToken := ⟨p, secret⟩

/-- `jsonwebtoken.verify(token, secret)`: the payload when the signature
matches the secret, a thrown verification error (modelled `none`)
otherwise. -/
def jsonwebtokenVerify (t : SignedToken) (secret : String) : Option TokenPayload :=
  if t.secret = secret then some t.payload else none

/-- The `tokenObj` accumulation of `findAndToken` (lines 279-290): the
conditions, and — for an options argument — the truthy select, order and
limit fields. -/
def buildTokenPayload (arg : FindManyArg) : TokenPayload :=
  let tokenObj : TokenPayload := {}
  let tokenObj := match getFindConditionsFromFindManyOptions arg with
    | some w => { tokenObj with whereC := some w }
    | none => tokenObj
  match arg with
  | .options o =>
    let t1 := match o.selectF with | some s => { tokenObj with selectF := some s } | none => tokenObj
    let t2 := match o.order with | some od => { t1 with order := some od } | none => t1
    match o.limit with | some n => if n = 0 then t2 else { t2 with limit := some n } | none => t2
  | _ => tokenObj

/-- `findAndToken` (lines 267-303). -/
def CollectionQuery.findAndToken (cq : CollectionQuery) (meta : NestMetadataStorage)
    (st : Store) (target : FnVal) (arg : FindManyArg) :
    Except FireErr (Option SignedToken × List (Option Entity)) :=
  let tokenObj := buildTokenPayload arg
  match CollectionQuery.find cq meta st target arg with
  | .error e => .error e
  | .ok documents =>
    if tokenObj.limit = none ∨ tokenObj.order = none ∨ (tokenObj.limit.getD 0) > documents.length
    then .ok (none, documents)
    else
      match meta.getIdPropName target with
      | .error e => .error e
      | .ok idPropName =>
        match documents.getLast? with
        | none => .error (.typeError "Cannot read properties of undefined")
        | some none => .error (.typeError "Cannot read properties of null")
        | some (some lastDocument) =>
          let lastDocumentId := (lookupF lastDocument idPropName).map jsValToString
          .ok (some (jsonwebtokenSign { tokenObj with lastDocumentId := lastDocumentId }
            "fireorm"), documents)

/-- `findByToken` (lines 305-325). -/
def CollectionQuery.findByToken (cq : CollectionQuery) (meta : NestMetadataStorage)
    (st : Store) (target : FnVal) (token : SignedToken) :
    Except FireErr (Option SignedToken × List (Option Entity)) :=
  match jsonwebtokenVerify token "fireorm" with
  | none => .error .invalidPaginationToken
  | some tokenObj =>
    if tokenObj.lastDocumentId = none ∨ tokenObj.lastDocumentId = some "" then
      .error .invalidPaginationToken
    else
      match meta.getCollectionPath target with
      | .error e => .error e
      | .ok cp =>
        let startAfterSnap := st.getDoc cp (tokenObj.lastDocumentId.getD "")
        if startAfterSnap.existsQ then
          CollectionQuery.findAndToken cq meta st target (.options
            { whereC := tokenObj.whereC, selectF := tokenObj.selectF,
              order := tokenObj.order, limit := tokenObj.limit,
              startAfter := some startAfterSnap })
        else .error .invalidPaginationToken

/-- Pagination driver (verification harness, not source code): follow the
token returned by one page request through `findByToken` until no further
token is returned, concatenating the pages. -/
def pagesFrom (cq : CollectionQuery) (meta : NestMetadataStorage) (st : Store)
    (target : FnVal) : Nat → SignedToken → Except FireErr (List (Option Entity))
  | 0, _ => .error .outOfFuel
  | fuel+1, tok =>
    match CollectionQuery.findByToken cq meta st target tok with
    | .error e => .error e
    | .ok (none, page) => .ok page
    | .ok (some t, page) =>
      match pagesFrom cq meta st target fuel t with
      | .error e => .error e
      | .ok rest => .ok (page ++ rest)

/-- Pagination driver entry point: the first page through `findAndToken`,
then the token chain. -/
def allPages (cq : CollectionQuery) (meta : NestMetadataStorage) (st : Store)
    (target : FnVal) (arg : FindManyArg) (fuel : Nat) :
    Except FireErr (List (Option Entity)) :=
  match CollectionQuery.findAndToken cq meta st target arg with
  | .error e => .error e
  | .ok (none, page) => .ok page
  | .ok (some t, page) =>
    match pagesFrom cq meta st target fuel t with
    | .error e => .error e
    | .ok rest => .ok (page ++ rest)

/-- Classification of the errors the query-building and relation-loading
pipeline can produce: metadata lookups, thunk invocation and Firestore field
validation.  The dedicated errors of `findOneOrFail`, `findByIds` and the
token functions are not of this shape. -/
def FireErr.isQueryErr : FireErr → Prop
  | .collectionNotFound => True
  | .idPropertyNotFound => True
  | .typeError _ => True
  | .invalidFieldPath => True
  | .invalidPaginationToken => False
  | .entityNotFound _ => False
  | .findByIdsCollectionGroup => False
  | .outOfFuel => False

/-- Concrete registry exercising the relation branches: `Photo.owner` is a
lazy many-to-one relation to `User`, `User.photos` the inverse one-to-many
relation. -/
def bugMeta : NestMetadataStorage :=
  { collections := [(.cls "User", "users"), (.cls "Photo", "photos")]
    ids := [(.cls "Photo", "id"), (.cls "User", "id")]
    relations := [⟨.cls "Photo", "owner", "many-to-one", true, .thunk "User", none⟩,
                  ⟨.cls "User", "photos", "one-to-many", true, .thunk "Photo", some "owner"⟩] }

/-- Concrete store for the relation scenarios: one photo referencing one
user. -/
def bugStore : Store :=
  { collections := [("photos", [⟨"p1", [("owner", .docRef "users" "u1")]⟩]),
                    ("users", [⟨"u1", [("name", .str "Ann")]⟩])] }

/-- Concrete registration sequence used to witness the registry invariant. -/
def wIdArgs : List IdPropertyMetadataArgs :=
  [⟨.cls "UserEntity", "id", .auto⟩, ⟨.cls "PhotoEntity", "photoId", .uuidV4⟩]

/-- Concrete registry used to witness the missing-metadata error contract. -/
def wStorage : MetadataStorage :=
  { collections := [⟨"users", .cls "UserEntity", {}⟩]
    ids := [⟨.cls "UserEntity", "id", .uuidV1⟩]
    properties := [] }

/-- Concrete registry for the pagination scenarios: a single `User` entity
with collection `users` and id property `id`, no relations. -/
def wPageMeta : NestMetadataStorage :=
  { collections := [(.cls "User", "users")], ids := [(.cls "User", "id")], relations := [] }

/-- Concrete store for the pagination scenarios: four users ordered by an
`age` field with a duplicate age, exercising the id tie-break. -/
def wPageStore : Store :=
  { collections := [("users",
      [⟨"u1", [("name", .str "dave"), ("age", .int 3)]⟩,
       ⟨"u2", [("name", .str "ann"), ("age", .int 1)]⟩,
       ⟨"u3", [("name", .str "carl"), ("age", .int 2)]⟩,
       ⟨"u4", [("name", .str "bea"), ("age", .int 2)]⟩])] }

/-- Pagination options for the witnesses: order by `age` ascending, two
documents per page. -/
def wPageOptions : FindManyOptions := { order := some [("age", false)], limit := some 2 }

/-- Witness token payload: the shape `findAndToken` would retain for
`wPageOptions`, pointing at document `u2`. -/
def wTokenPayload : TokenPayload :=
  { order := some [("age", false)], limit := some 2, lastDocumentId := some "u2" }

/-- Witness pagination token: `wTokenPayload` signed with the fixed secret. -/
def wToken : SignedToken := jsonwebtokenSign wTokenPayload "fireorm"

/-- The filter stage of `runQuery` over a collection query: the documents of
the collection (paired with the path) that satisfy the accumulated clauses. -/
def filteredDocs (st : Store) (cp : String) (W : List WhereClause) :
    List (String × FsDoc) :=
  ((st.getColl cp).map (fun d => (cp, d))).filter
    (fun pd => W.all (fun wc => evalClause pd.2 wc))

/-- The sort stage of `runQuery`: the filtered documents in query order. -/
def sortedDocs (st : Store) (cp : String) (W : List WhereClause)
    (ordl : List (String × Bool)) : List (String × FsDoc) :=
  (filteredDocs st cp W).insertionSort (sortLE ordl)

/-- The snapshot `runQuery` produces for a kept document under a `select`
mask. -/
def pageSnap (sel : Option (List String)) (pd : String × FsDoc) : DocumentSnapshot :=
  { collPath := pd.1, id := pd.2.id, fieldsOpt := some (projectFields sel pd.2.fields) }

/-- The entity slot a result snapshot becomes on the relation-free path. -/
def pageEnt (target : FnVal) (idp : String) (sel : Option (List String))
    (pd : String × FsDoc) : Option Entity :=
  some (transformToClass target (mkData idp (pageSnap sel pd)))

/-! ## Theorems -/

theorem length_filter_le_one_of_nodup_map {α β : Type} [DecidableEq β] (f : α → β)
    (l : List α) (h : (l.map f).Nodup) (b : β) :
    (l.filter (fun a => f a == b)).length ≤ 1 := by
  induction l with
  | nil => simp
  | cons a l ih =>
    simp only [List.map_cons, List.nodup_cons, List.mem_map] at h
    by_cases hab : f a = b
    · have hnil : l.filter (fun a => f a == b) = [] := by
        rw [List.filter_eq_nil_iff]
        intro x hx
        simp only [beq_iff_eq]
        intro hxb
        exact h.1 ⟨x, hx, by rw [hxb, hab]⟩
      simp [List.filter_cons, hab, hnil]
    · simpa [List.filter_cons, hab] using ih h.2

theorem eq_of_mem_of_length_le_one {α : Type} {l : List α} (h : l.length ≤ 1)
    {a b : α} (ha : a ∈ l) (hb : b ∈ l) : a = b := by
  match l with
  | [] => cases ha
  | [x] =>
    rw [List.mem_singleton] at ha hb
    rw [ha, hb]
  | x :: y :: rest => simp at h

theorem registerIds_ids_eq : ∀ (args : List IdPropertyMetadataArgs) (s : MetadataStorage),
    (args.foldl MetadataStorage.registerId s).ids = s.ids ++ args
  | [], s => by simp
  | a :: args, s => by
    rw [List.foldl_cons, registerIds_ids_eq args]
    simp [MetadataStorage.registerId]

/-- C7: after any startup sequence of id registrations in which each class
defines its id property once, the `ids` array of the registry holds at most
one entry per target class, and `getIdProp` is unambiguous: every entry for
that target equals the one returned, so `getIdPropName` and
`getIdGenerataValue` are determined by it as well. -/
theorem c7_registry_at_most_one_id_prop (args : List IdPropertyMetadataArgs)
    (honce : (args.map (fun a => a.target)).Nodup) :
    (∀ t : FnVal, ((registerIds args).ids.filter (fun a => a.target == t)).length ≤ 1)
  ∧ (∀ (t : FnVal) (p : IdPropertyMetadataArgs), (registerIds args).getIdProp t = .ok p →
      ∀ q ∈ (registerIds args).ids, q.target = t → q = p)
  ∧ (∀ (t : FnVal) (p : IdPropertyMetadataArgs), (registerIds args).getIdProp t = .ok p →
      (registerIds args).getIdPropName t = .ok p.propertyName) := by
  have hids : (registerIds args).ids = args := by
    rw [registerIds, registerIds_ids_eq]
    rfl
  have hlen : ∀ t : FnVal, ((registerIds args).ids.filter (fun a => a.target == t)).length ≤ 1 := by
    intro t
    rw [hids]
    exact length_filter_le_one_of_nodup_map (fun a => a.target) args honce t
  refine ⟨hlen, ?_, ?_⟩
  · intro t p hp q hq hqt
    have hfind : (registerIds args).ids.find? (fun a => a.target == t) = some p := by
      revert hp
      unfold MetadataStorage.getIdProp
      cases h : (registerIds args).ids.find? (fun a => a.target == t) with
      | none => intro h2; cases h2
      | some r => intro h2; cases h2; rfl
    have hpmem : p ∈ (registerIds args).ids := List.mem_of_find?_eq_some hfind
    have hpt : p.target = t := by
      have := List.find?_some hfind
      simpa using this
    have hqf : q ∈ (registerIds args).ids.filter (fun a => a.target == t) := by
      rw [List.mem_filter]
      exact ⟨hq, by simpa using hqt⟩
    have hpf : p ∈ (registerIds args).ids.filter (fun a => a.target == t) := by
      rw [List.mem_filter]
      exact ⟨hpmem, by simpa using hpt⟩
    exact eq_of_mem_of_length_le_one (hlen t) hqf hpf
  · intro t p hp
    unfold MetadataStorage.getIdPropName
    rw [hp]

/-- Witness for C7 at a concrete two-class registration sequence. -/
theorem c7_registry_at_most_one_id_prop_witness :
    (∀ t : FnVal, ((registerIds wIdArgs).ids.filter (fun a => a.target == t)).length ≤ 1)
  ∧ (∀ (t : FnVal) (p : IdPropertyMetadataArgs), (registerIds wIdArgs).getIdProp t = .ok p →
      ∀ q ∈ (registerIds wIdArgs).ids, q.target = t → q = p)
  ∧ (∀ (t : FnVal) (p : IdPropertyMetadataArgs), (registerIds wIdArgs).getIdProp t = .ok p →
      (registerIds wIdArgs).getIdPropName t = .ok p.propertyName) :=
  c7_registry_at_most_one_id_prop wIdArgs (by decide)

/-- C8: `getCollection` and `getCollectionName` fail, with the
`CollectionNotFound` error, exactly when no collection entry is registered for
the class; `getIdProp`, `getIdPropName` and `getIdGenerataValue` fail, with
the id-property-not-found error, exactly when no id entry is registered; and
when the metadata is registered each returns it without throwing. -/
theorem c8_missing_metadata_errors (s : MetadataStorage) (t : FnVal) :
    (s.getCollection t = .error .collectionNotFound ↔ ¬ ∃ c ∈ s.collections, c.target = t)
  ∧ (s.getCollectionName t = .error .collectionNotFound ↔ ¬ ∃ c ∈ s.collections, c.target = t)
  ∧ (s.getIdProp t = .error .idPropertyNotFound ↔ ¬ ∃ p ∈ s.ids, p.target = t)
  ∧ (s.getIdPropName t = .error .idPropertyNotFound ↔ ¬ ∃ p ∈ s.ids, p.target = t)
  ∧ (s.getIdGenerataValue t = .error .idPropertyNotFound ↔ ¬ ∃ p ∈ s.ids, p.target = t)
  ∧ (∀ c, s.getCollection t = .ok c → c ∈ s.collections ∧ c.target = t)
  ∧ (∀ p, s.getIdProp t = .ok p → p ∈ s.ids ∧ p.target = t) := by
  have hcoll : s.collections.find? (fun c => c.target == t) = none ↔
      ¬ ∃ c ∈ s.collections, c.target = t := by
    rw [List.find?_eq_none]
    simp
  have hid : s.ids.find? (fun p => p.target == t) = none ↔
      ¬ ∃ p ∈ s.ids, p.target = t := by
    rw [List.find?_eq_none]
    simp
  refine ⟨?_, ?_, ?_, ?_, ?_, ?_, ?_⟩
  · unfold MetadataStorage.getCollection
    cases h : s.collections.find? (fun c => c.target == t) with
    | none => simpa [h] using hcoll.mp h
    | some c =>
      simp only [h]
      constructor
      · intro habs; cases habs
      · intro habs
        exact absurd (hcoll.mpr habs) (by simp [h])
  · unfold MetadataStorage.getCollectionName
    cases h : s.collections.find? (fun c => c.target == t) with
    | none => simpa [h] using hcoll.mp h
    | some c =>
      simp only [h]
      constructor
      · intro habs; cases habs
      · intro habs
        exact absurd (hcoll.mpr habs) (by simp [h])
  · unfold MetadataStorage.getIdProp
    cases h : s.ids.find? (fun p => p.target == t) with
    | none => simpa [h] using hid.mp h
    | some p =>
      simp only [h]
      constructor
      · intro habs; cases habs
      · intro habs
        exact absurd (hid.mpr habs) (by simp [h])
  · unfold MetadataStorage.getIdPropName MetadataStorage.getIdProp
    cases h : s.ids.find? (fun p => p.target == t) with
    | none =>
      simp only [h]
      simpa using hid.mp h
    | some p =>
      simp only [h]
      constructor
      · intro habs
        simp at habs
      · intro habs
        exact absurd (hid.mpr habs) (by simp [h])
  · unfold MetadataStorage.getIdGenerataValue MetadataStorage.getIdProp
    cases h : s.ids.find? (fun p => p.target == t) with
    | none =>
      simp only [h]
      simpa using hid.mp h
    | some p =>
      simp only [h]
      constructor
      · intro habs
        obtain ⟨pt, pn, ps⟩ := p
        cases ps <;> simp at habs
      · intro habs
        exact absurd (hid.mpr habs) (by simp [h])
  · intro c
    unfold MetadataStorage.getCollection
    cases h : s.collections.find? (fun c => c.target == t) with
    | none => intro habs; cases habs
    | some c2 =>
      intro hok
      cases hok
      refine ⟨List.mem_of_find?_eq_some h, ?_⟩
      have := List.find?_some h
      simpa using this
  · intro p
    unfold MetadataStorage.getIdProp
    cases h : s.ids.find? (fun p => p.target == t) with
    | none => intro habs; cases habs
    | some p2 =>
      intro hok
      cases hok
      refine ⟨List.mem_of_find?_eq_some h, ?_⟩
      have := List.find?_some h
      simpa using this

/-- Witness for C8: at a concrete registry, a registered class yields its
metadata and an unregistered class yields exactly the missing-metadata
errors. -/
theorem c8_missing_metadata_errors_witness :
    (wStorage.getCollection (.cls "UserEntity") = .ok ⟨"users", .cls "UserEntity", {}⟩
      ∧ (⟨"users", .cls "UserEntity", {}⟩ : CollectionMetadataArgs) ∈ wStorage.collections)
  ∧ wStorage.getCollection (.cls "Nope") = .error .collectionNotFound
  ∧ wStorage.getIdPropName (.cls "Nope") = .error .idPropertyNotFound := by
  refine ⟨⟨by rfl, ?_⟩, ?_, ?_⟩
  · exact ((c8_missing_metadata_errors wStorage (.cls "UserEntity")).2.2.2.2.2.1
      ⟨"users", .cls "UserEntity", {}⟩ (by rfl)).1
  · exact ((c8_missing_metadata_errors wStorage (.cls "Nope")).1).mpr (by decide)
  · exact ((c8_missing_metadata_errors wStorage (.cls "Nope")).2.2.2.1).mpr (by decide)

theorem call_err {f : FnVal} {e : FireErr} (h : f.call = .error e) : e.isQueryErr := by
  cases f with
  | thunk r => cases h
  | cls n =>
    unfold FnVal.call at h
    cases h
    trivial

theorem nest_getCollectionPath_err {m : NestMetadataStorage} {t : FnVal} {e : FireErr}
    (h : m.getCollectionPath t = .error e) : e = .collectionNotFound := by
  unfold NestMetadataStorage.getCollectionPath at h
  cases hf : m.collections.find? (fun c => c.1 == t) <;> rw [hf] at h
  · cases h; rfl
  · cases h

theorem nest_getIdPropName_err {m : NestMetadataStorage} {t : FnVal} {e : FireErr}
    (h : m.getIdPropName t = .error e) : e = .idPropertyNotFound := by
  unfold NestMetadataStorage.getIdPropName at h
  cases hf : m.ids.find? (fun c => c.1 == t) <;> rw [hf] at h
  · cases h; rfl
  · cases h

theorem processRelation_err {meta : NestMetadataStorage} {st : Store} {target : FnVal}
    {cp idp : String} {data : DataObject} {index : Nat} {relation : String} {stt : RelState}
    {e : FireErr}
    (h : processRelation meta st target cp idp data index relation stt = .error e) :
    e.isQueryErr := by
  unfold processRelation at h
  rcases hfind : List.find? (fun r => r.propertyName == relation)
      (List.filter (fun r => r.target == target) meta.relations) with _ | rm <;>
    simp only [hfind] at h
  · cases h
  · repeat' split at h
    all_goals try cases h
    all_goals first
      | trivial
      | (exact call_err (by assumption))
      | (rw [show e = FireErr.collectionNotFound from nest_getCollectionPath_err (by assumption)]
         trivial)

theorem processRelations_err {meta : NestMetadataStorage} {st : Store} {target : FnVal}
    {cp idp : String} {data : DataObject} {index : Nat} :
    ∀ {rels : List String} {stt : RelState} {e : FireErr},
    processRelations meta st target cp idp data index rels stt = .error e → e.isQueryErr := by
  intro rels
  induction rels with
  | nil => intro stt e h; cases h
  | cons r rs ih =>
    intro stt e h
    unfold processRelations at h
    split at h
    · rename_i heq
      cases h
      exact processRelation_err heq
    · exact ih h

theorem processDocs_err {meta : NestMetadataStorage} {st : Store} {target : FnVal}
    {cp idp : String} {rels : List String} :
    ∀ {docs : List (Option DocumentSnapshot)} {index : Nat} {stt : RelState} {e : FireErr},
    processDocs meta st target cp idp rels docs index stt = .error e → e.isQueryErr := by
  intro docs
  induction docs with
  | nil => intro index stt e h; cases h
  | cons d ds ih =>
    intro index stt e h
    unfold processDocs at h
    cases d with
    | none =>
      cases hrec : processDocs meta st target cp idp rels ds (index+1) stt with
      | error e2 =>
        simp only [hrec] at h
        have he : e2 = e := by simpa using h
        exact he ▸ ih hrec
      | ok p =>
        obtain ⟨rest, stt2⟩ := p
        simp only [hrec] at h
        simp at h
    | some doc =>
      by_cases hrels : rels.length > 0
      · simp only [if_pos hrels] at h
        cases hrel : processRelations meta st target cp idp (mkData idp doc) index rels stt with
        | error e2 =>
          simp only [hrel] at h
          have he : e2 = e := by simpa using h
          exact he ▸ processRelations_err hrel
        | ok stt2 =>
          simp only [hrel] at h
          cases hrec : processDocs meta st target cp idp rels ds (index+1) stt2 with
          | error e3 =>
            simp only [hrec] at h
            have he : e3 = e := by simpa using h
            exact he ▸ ih hrec
          | ok p =>
            obtain ⟨rest, stt3⟩ := p
            simp only [hrec] at h
            simp at h
      · simp only [if_neg hrels] at h
        cases hrec : processDocs meta st target cp idp rels ds (index+1) stt with
        | error e3 =>
          simp only [hrec] at h
          have he : e3 = e := by simpa using h
          exact he ▸ ih hrec
        | ok p =>
          obtain ⟨rest, stt3⟩ := p
          simp only [hrec] at h
          simp at h

theorem loadRelations_err {meta : NestMetadataStorage} {st : Store} {target : FnVal}
    {docs : List (Option DocumentSnapshot)} {rels : List String} {e : FireErr}
    (h : CollectionQuery.loadRelations meta st target docs rels = .error e) : e.isQueryErr := by
  unfold CollectionQuery.loadRelations at h
  cases hid : meta.getIdPropName target with
  | error e2 =>
    simp only [hid] at h
    have he : e2 = e := by simpa using h
    rw [← he, nest_getIdPropName_err hid]
    trivial
  | ok idp =>
    simp only [hid] at h
    cases hcp : meta.getCollectionPath target with
    | error e2 =>
      simp only [hcp] at h
      have he : e2 = e := by simpa using h
      rw [← he, nest_getCollectionPath_err hcp]
      trivial
    | ok cp =>
      simp only [hcp] at h
      cases hpd : processDocs meta st target cp idp rels docs 0 ⟨[], []⟩ with
      | error e2 =>
        simp only [hpd] at h
        have he : e2 = e := by simpa using h
        exact he ▸ processDocs_err hpd
      | ok p =>
        obtain ⟨datas, stt⟩ := p
        simp only [hpd] at h
        simp at h

theorem getQuery_err {cq : CollectionQuery} {meta : NestMetadataStorage} {target : FnVal}
    {e : FireErr} (h : cq.getQuery meta target = .error e) : e = .collectionNotFound := by
  unfold CollectionQuery.getQuery at h
  split at h
  · cases h
  · split at h
    · cases h
    · cases hcp : meta.getCollectionPath target with
      | error e2 =>
        simp only [hcp] at h
        have he : e2 = e := by simpa using h
        rw [← he]
        exact nest_getCollectionPath_err hcp
      | ok cp =>
        simp only [hcp] at h
        simp at h

theorem findWhereStep_err {meta : NestMetadataStorage} {target : FnVal} {q : FsQuery}
    {fc : String × FindCondValue} {e : FireErr}
    (h : findWhereStep meta target q fc = .error e) : e = .collectionNotFound := by
  unfold findWhereStep at h
  split at h
  · rename_i rm hfound
    split at h
    · cases h
    · cases hcp : meta.getCollectionPath rm.type with
      | error e2 =>
        simp only [hcp] at h
        have he : e2 = e := by simpa using h
        rw [← he]
        exact nest_getCollectionPath_err hcp
      | ok cp =>
        simp only [hcp] at h
        simp at h
  · cases h

theorem findOneWhereStep_err {meta : NestMetadataStorage} {target : FnVal} {q : FsQuery}
    {fc : String × FindCondValue} {e : FireErr}
    (h : findOneWhereStep meta target q fc = .error e) : e.isQueryErr := by
  unfold findOneWhereStep at h
  split at h
  · rename_i rm hfound
    cases hcall : rm.type.call with
    | error e2 =>
      simp only [hcall] at h
      have he : e2 = e := by simpa using h
      exact he ▸ call_err hcall
    | ok rt =>
      simp only [hcall] at h
      cases hcp : meta.getCollectionPath rt with
      | error e2 =>
        simp only [hcp] at h
        have he : e2 = e := by simpa using h
        rw [← he, nest_getCollectionPath_err hcp]
        trivial
      | ok cp =>
        simp only [hcp] at h
        simp at h
  · cases h

theorem applyWheresFind_err {meta : NestMetadataStorage} {target : FnVal} :
    ∀ {w : FindConditions} {q : FsQuery} {e : FireErr},
    applyWheresFind meta target w q = .error e → e.isQueryErr := by
  intro w
  induction w with
  | nil => intro q e h; cases h
  | cons fc w ih =>
    intro q e h
    unfold applyWheresFind at h
    cases hstep : findWhereStep meta target q fc with
    | error e2 =>
      simp only [hstep] at h
      have he : e2 = e := by simpa using h
      rw [← he, findWhereStep_err hstep]
      trivial
    | ok q2 =>
      simp only [hstep] at h
      exact ih h

theorem applyWheresFindOne_err {meta : NestMetadataStorage} {target : FnVal} :
    ∀ {w : FindConditions} {q : FsQuery} {e : FireErr},
    applyWheresFindOne meta target w q = .error e → e.isQueryErr := by
  intro w
  induction w with
  | nil => intro q e h; cases h
  | cons fc w ih =>
    intro q e h
    unfold applyWheresFindOne at h
    cases hstep : findOneWhereStep meta target q fc with
    | error e2 =>
      simp only [hstep] at h
      have he : e2 = e := by simpa using h
      exact he ▸ findOneWhereStep_err hstep
    | ok q2 =>
      simp only [hstep] at h
      exact ih h

theorem find_err {cq : CollectionQuery} {meta : NestMetadataStorage} {st : Store}
    {target : FnVal} {arg : FindManyArg} {e : FireErr}
    (h : CollectionQuery.find cq meta st target arg = .error e) : e.isQueryErr := by
  unfold CollectionQuery.find at h
  cases hq : cq.getQuery meta target with
  | error e2 =>
    simp only [hq] at h
    have he : e2 = e := by simpa using h
    rw [← he, getQuery_err hq]
    trivial
  | ok q0 =>
    simp only [hq] at h
    cases hw : getFindConditionsFromFindManyOptions arg with
    | none =>
      simp only [hw] at h
      exact loadRelations_err h
    | some w =>
      simp only [hw] at h
      cases hfold : applyWheresFind meta target w q0 with
      | error e2 =>
        simp only [hfold] at h
        have he : e2 = e := by simpa using h
        exact he ▸ applyWheresFind_err hfold
      | ok q1 =>
        simp only [hfold] at h
        exact loadRelations_err h

theorem findOne_err {cq : CollectionQuery} {meta : NestMetadataStorage} {st : Store}
    {target : FnVal} {arg : FindOneArg} {e : FireErr}
    (h : CollectionQuery.findOne cq meta st target arg = .error e) : e.isQueryErr := by
  unfold CollectionQuery.findOne at h
  cases hq : cq.getQuery meta target with
  | error e2 =>
    simp only [hq] at h
    have he : e2 = e := by simpa using h
    rw [← he, getQuery_err hq]
    trivial
  | ok q0 =>
    simp only [hq] at h
    have main : ∀ (q1 : FsQuery),
        (match runQuery st ((applyFindOneOptions arg q1).1.limitQ 1) with
          | [] => (Except.ok none : Except FireErr (Option (Option Entity)))
          | d :: _ =>
            if d.existsQ then
              match CollectionQuery.loadRelations meta st target
                  ((runQuery st ((applyFindOneOptions arg q1).1.limitQ 1)).map some)
                  (applyFindOneOptions arg q1).2 with
              | .error e => .error e
              | .ok entities =>
                match entities with
                | e :: _ => .ok (some e)
                | [] => .ok none
            else .ok none) = .error e → e.isQueryErr := by
      intro q1 hm
      cases hdocs : runQuery st ((applyFindOneOptions arg q1).1.limitQ 1) with
      | nil => rw [hdocs] at hm; simp at hm
      | cons d rest =>
        rw [hdocs] at hm
        by_cases hex : d.existsQ
        · simp only [if_pos hex] at hm
          cases hlr : CollectionQuery.loadRelations meta st target
              ((d :: rest).map some) (applyFindOneOptions arg q1).2 with
          | error e2 =>
            simp only [hlr] at hm
            have he : e2 = e := by simpa using hm
            exact he ▸ loadRelations_err hlr
          | ok entities =>
            simp only [hlr] at hm
            cases entities <;> simp at hm
        · simp only [if_neg hex] at hm
          simp at hm
    cases hw : getFindConditionsFromFindOneOptions arg with
    | none =>
      simp only [hw] at h
      exact main q0 h
    | some w =>
      simp only [hw] at h
      cases hfold : applyWheresFindOne meta target w q0 with
      | error e2 =>
        simp only [hfold] at h
        have he : e2 = e := by simpa using h
        exact he ▸ applyWheresFindOne_err hfold
      | ok q1 =>
        simp only [hfold] at h
        exact main q1 h

/-- C9: `findByIds` rejects with the unsupported-operation error (message
"findByIds not support CollectionGroup") exactly when the `CollectionQuery`
was constructed with a truthy `collectionId` option — the check precedes
every document-reference construction and fetch, so the error is independent
of the store, the registry, the ids and the options — and with no
`collectionId` option that error is never raised. -/
theorem c9_find_by_ids_collection_group (cq : CollectionQuery) (meta : NestMetadataStorage)
    (st : Store) (target : FnVal) (idOrIds : IdOrIds) (options : Option FindOneOptions) :
    (strTruthy cq.options.collectionId = true →
      CollectionQuery.findByIds cq meta st target idOrIds options
        = .error .findByIdsCollectionGroup)
  ∧ (strTruthy cq.options.collectionId = false →
      CollectionQuery.findByIds cq meta st target idOrIds options
        ≠ .error .findByIdsCollectionGroup) := by
  constructor
  · intro h
    unfold CollectionQuery.findByIds
    simp [h]
  · intro h hcontra
    unfold CollectionQuery.findByIds at hcontra
    simp only [h, Bool.false_eq_true, if_false] at hcontra
    cases hc : (if strTruthy cq.options.parentPath = true
        then (Except.ok (cq.options.parentPath.getD "") : Except FireErr String)
        else meta.getCollectionPath target) with
    | error e2 =>
      simp only [hc] at hcontra
      have he : e2 = .findByIdsCollectionGroup := by simpa using hcontra
      have hcnf : e2 = .collectionNotFound := by
        split at hc
        · cases hc
        · exact nest_getCollectionPath_err hc
      rw [he] at hcnf
      cases hcnf
    | ok collectionPath =>
      simp only [hc] at hcontra
      cases idOrIds with
      | many l =>
        generalize hlr : CollectionQuery.loadRelations meta st target _ _ = lr at hcontra
        cases lr with
        | error e2 =>
          simp at hcontra
          have := loadRelations_err hlr
          rw [hcontra] at this
          exact this.elim
        | ok es => simp at hcontra
      | one i =>
        simp only at hcontra
        split at hcontra
        · simp at hcontra
        · generalize hlr : CollectionQuery.loadRelations meta st target _ _ = lr at hcontra
          cases lr with
          | error e2 =>
            simp at hcontra
            have := loadRelations_err hlr
            rw [hcontra] at this
            exact this.elim
          | ok es => cases es <;> simp at hcontra

/-- Witness for C9 at concrete inputs: a collection-group query raises the
error, a default query does not. -/
theorem c9_find_by_ids_collection_group_witness :
    CollectionQuery.findByIds { options := { collectionId := some "photos" } } bugMeta bugStore
      (.cls "Photo") (.one "p1") none = .error .findByIdsCollectionGroup
  ∧ CollectionQuery.findByIds {} bugMeta bugStore (.cls "Photo") (.one "p1") none
      ≠ .error .findByIdsCollectionGroup := by
  constructor
  · exact (c9_find_by_ids_collection_group { options := { collectionId := some "photos" } }
      bugMeta bugStore (.cls "Photo") (.one "p1") none).1 (by decide)
  · exact (c9_find_by_ids_collection_group {} bugMeta bugStore
      (.cls "Photo") (.one "p1") none).2 (by decide)

/-- C1: refuted as stated — the claim holds on the paths where every earlier
document contributed a mapping slot, but `loadRelations` replaces
`relationDocMapping[index] = {}` by `relationDocMapping.push({})`, so when a
missing document (mapped to null, contributing no slot) precedes an existing
document whose relation is mapped, the write
`relationDocMapping[index][relation] = …` hits an undefined slot and the call
rejects with a `TypeError` instead of splicing the resolved sub-document into
the results. -/
theorem c1_load_relations_crash :
    CollectionQuery.loadRelations bugMeta bugStore (.cls "Photo")
      [none, some (bugStore.getDoc "photos" "p1")] ["owner"]
      = .error (.typeError "Cannot set properties of undefined") := by decide

/-- C10: refuted as stated on the relation-loading path — `findByIds` maps
missing documents to null placeholders, but when a missing id precedes an
existing document and relations are requested, the misaligned
`relationDocMapping.push` makes the call reject with a `TypeError` rather
than resolve. -/
theorem c10_find_by_ids_rejects_on_missing :
    CollectionQuery.findByIds {} bugMeta bugStore (.cls "Photo") (.many ["nope", "p1"])
      (some { relations := some ["owner"] })
      = .error (.typeError "Cannot set properties of undefined") := by decide

/-- C6: refuted as stated — on a `where` condition naming the lazy
many-to-one relation `owner` with the plain id value "u1", `findOne` invokes
the relation's type thunk, resolves the `users` collection and matches the
photo referencing `users/u1`, while `find` passes the un-invoked thunk itself
to `getCollectionPath`, finds no collection registered for it, and rejects
with `CollectionNotFound`: the two do not build identical queries. -/
theorem c6_lazy_relation_divergence :
    CollectionQuery.find {} bugMeta bugStore (.cls "Photo")
      (.conditions [("owner", .val (.str "u1"))]) = .error .collectionNotFound
  ∧ CollectionQuery.findOne {} bugMeta bugStore (.cls "Photo")
      (.conditions [("owner", .val (.str "u1"))])
      = .ok (some (some [("owner", .prim (.str "u1")), ("id", .prim (.str "p1"))])) := by
  constructor
  · decide
  · decide

/-- C5: `findOneOrFail` rejects with the entity-not-found error (message
"Entity not found, entity: <target.name>") exactly when `findOne` resolves
`undefined` (the query matched no document); when `findOne` resolves a value
it resolves with that same value, and when `findOne` rejects the failure
propagates to the caller unchanged — no retry or recovery. -/
theorem c5_find_one_or_fail (cq : CollectionQuery) (meta : NestMetadataStorage) (st : Store)
    (target : FnVal) (arg : FindOneArg) :
    (CollectionQuery.findOneOrFail cq meta st target arg
        = .error (.entityNotFound target.jsName)
      ↔ CollectionQuery.findOne cq meta st target arg = .ok none)
  ∧ (∀ v, CollectionQuery.findOne cq meta st target arg = .ok (some v) →
      CollectionQuery.findOneOrFail cq meta st target arg = .ok v)
  ∧ (∀ e, CollectionQuery.findOne cq meta st target arg = .error e →
      CollectionQuery.findOneOrFail cq meta st target arg = .error e) := by
  refine ⟨⟨?_, ?_⟩, ?_, ?_⟩
  · intro h
    unfold CollectionQuery.findOneOrFail at h
    cases hfo : CollectionQuery.findOne cq meta st target arg with
    | error e =>
      simp only [hfo] at h
      have he : e = .entityNotFound target.jsName := by simpa using h
      have hq := findOne_err hfo
      rw [he] at hq
      exact hq.elim
    | ok v =>
      cases v with
      | none => rfl
      | some v2 =>
        simp only [hfo] at h
        simp at h
  · intro h
    unfold CollectionQuery.findOneOrFail
    simp only [h]
  · intro v h
    unfold CollectionQuery.findOneOrFail
    simp only [h]
  · intro e h
    unfold CollectionQuery.findOneOrFail
    simp only [h]

/-- Witness for C5 at concrete inputs: a query matching no photo makes
`findOneOrFail` reject with the entity-not-found error, and a matching query
resolves with exactly the entity `findOne` returns. -/
theorem c5_find_one_or_fail_witness :
    CollectionQuery.findOneOrFail {} bugMeta bugStore (.cls "Photo")
      (.conditions [("owner", .val (.str "zzz"))]) = .error (.entityNotFound "Photo")
  ∧ CollectionQuery.findOneOrFail {} bugMeta bugStore (.cls "Photo")
      (.conditions [("owner", .val (.str "u1"))])
      = .ok (some [("owner", .prim (.str "u1")), ("id", .prim (.str "p1"))]) := by
  constructor
  · exact (c5_find_one_or_fail {} bugMeta bugStore (.cls "Photo")
      (.conditions [("owner", .val (.str "zzz"))])).1.mpr (by decide)
  · exact (c5_find_one_or_fail {} bugMeta bugStore (.cls "Photo")
      (.conditions [("owner", .val (.str "u1"))])).2.1
      (some [("owner", .prim (.str "u1")), ("id", .prim (.str "p1"))]) (by decide)

theorem ordering_eq_of_eq_swap {o : Ordering} (h : o = o.swap) : o = .eq := by
  cases o <;> first | rfl | cases h

theorem natCmp_symm (a b : Nat) : natCmp a b = (natCmp b a).swap := by
  unfold natCmp
  rcases Nat.lt_trichotomy a b with h | h | h
  · have h2 : ¬ b < a := by omega
    simp [h, h2, Ordering.swap]
  · subst h
    simp [Nat.lt_irrefl, Ordering.swap]
  · have h2 : ¬ a < b := by omega
    simp [h, h2, Ordering.swap]

theorem natCmp_eq {a b : Nat} (h : natCmp a b = .eq) : a = b := by
  unfold natCmp at h
  split_ifs at h <;> omega

theorem natCmp_lt {a b : Nat} : natCmp a b = .lt ↔ a < b := by
  unfold natCmp
  split_ifs with h1 h2 <;> simp_all <;> omega

theorem natCmp_lt_trans {a b c : Nat} (h1 : natCmp a b = .lt) (h2 : natCmp b c = .lt) :
    natCmp a c = .lt :=
  natCmp_lt.mpr (Nat.lt_trans (natCmp_lt.mp h1) (natCmp_lt.mp h2))

theorem intCmp_symm (a b : Int) : intCmp a b = (intCmp b a).swap := by
  unfold intCmp
  rcases Int.lt_trichotomy a b with h | h | h
  · have h2 : ¬ b < a := by omega
    simp [h, h2, Ordering.swap]
  · subst h
    simp [Int.lt_irrefl, Ordering.swap]
  · have h2 : ¬ a < b := by omega
    simp [h, h2, Ordering.swap]

theorem intCmp_eq {a b : Int} (h : intCmp a b = .eq) : a = b := by
  unfold intCmp at h
  split_ifs at h <;> omega

theorem intCmp_lt {a b : Int} : intCmp a b = .lt ↔ a < b := by
  unfold intCmp
  split_ifs with h1 h2 <;> simp_all <;> omega

theorem intCmp_lt_trans {a b c : Int} (h1 : intCmp a b = .lt) (h2 : intCmp b c = .lt) :
    intCmp a c = .lt :=
  intCmp_lt.mpr (Int.lt_trans (intCmp_lt.mp h1) (intCmp_lt.mp h2))

theorem charCmp_symm (a b : Char) : charCmp a b = (charCmp b a).swap := natCmp_symm _ _

theorem charCmp_eq {a b : Char} (h : charCmp a b = .eq) : a = b :=
  Char.eq_of_val_eq (UInt32.ext (natCmp_eq h))

theorem charCmp_lt_trans {a b c : Char} (h1 : charCmp a b = .lt) (h2 : charCmp b c = .lt) :
    charCmp a c = .lt := natCmp_lt_trans h1 h2

theorem charsCmp_symm : ∀ (as bs : List Char), charsCmp as bs = (charsCmp bs as).swap
  | [], [] => rfl
  | [], _ :: _ => rfl
  | _ :: _, [] => rfl
  | a :: as, b :: bs => by
    show (charCmp a b).then (charsCmp as bs) = ((charCmp b a).then (charsCmp bs as)).swap
    rw [Ordering.swap_then, ← charCmp_symm, ← charsCmp_symm as bs]

theorem charsCmp_eq : ∀ {as bs : List Char}, charsCmp as bs = .eq → as = bs
  | [], [], _ => rfl
  | [], _ :: _, h => by cases h
  | _ :: _, [], h => by cases h
  | a :: as, b :: bs, h => by
    have h2 := Ordering.then_eq_eq.mp h
    rw [charCmp_eq h2.1, charsCmp_eq h2.2]

theorem charsCmp_lt_trans : ∀ {as bs cs : List Char},
    charsCmp as bs = .lt → charsCmp bs cs = .lt → charsCmp as cs = .lt
  | [], [], _, h1, _ => by cases h1
  | [], _ :: _, [], _, h2 => by cases h2
  | [], _ :: _, _ :: _, _, _ => rfl
  | _ :: _, [], _, h1, _ => by cases h1
  | _ :: _, _ :: _, [], _, h2 => by cases h2
  | a :: as, b :: bs, c :: cs, h1, h2 => by
    have h1 : (charCmp a b).then (charsCmp as bs) = .lt := h1
    have h2 : (charCmp b c).then (charsCmp bs cs) = .lt := h2
    show (charCmp a c).then (charsCmp as cs) = .lt
    cases hab : charCmp a b with
    | gt => rw [hab] at h1; cases h1
    | lt =>
      cases hbc : charCmp b c with
      | gt => rw [hbc] at h2; cases h2
      | lt => rw [charCmp_lt_trans hab hbc]; rfl
      | eq =>
        have hcc : charCmp a c = .lt := by rw [← charCmp_eq hbc]; exact hab
        rw [hcc]; rfl
    | eq =>
      have hac := charCmp_eq hab
      rw [hab] at h1
      have h1x : charsCmp as bs = .lt := h1
      cases hbc : charCmp b c with
      | gt => rw [hbc] at h2; cases h2
      | lt =>
        have hcc : charCmp a c = .lt := by rw [hac]; exact hbc
        rw [hcc]; rfl
      | eq =>
        have h2x : charsCmp bs cs = .lt := by rw [hbc] at h2; exact h2
        have hcc : charCmp a c = .eq := by rw [hac]; exact hbc
        rw [hcc]
        exact charsCmp_lt_trans h1x h2x

theorem strCmp_symm (a b : String) : strCmp a b = (strCmp b a).swap := charsCmp_symm _ _

theorem strCmp_eq {a b : String} (h : strCmp a b = .eq) : a = b := String.ext (charsCmp_eq h)

theorem strCmp_lt_trans {a b c : String} (h1 : strCmp a b = .lt) (h2 : strCmp b c = .lt) :
    strCmp a c = .lt := charsCmp_lt_trans h1 h2

theorem strCmp_refl (a : String) : strCmp a a = .eq :=
  ordering_eq_of_eq_swap (strCmp_symm a a)

theorem thenCmp_symm {α : Type} {f g : α → α → Ordering}
    (hf : ∀ a b, f a b = (f b a).swap) (hg : ∀ a b, g a b = (g b a).swap) (a b : α) :
    (f a b).then (g a b) = ((f b a).then (g b a)).swap := by
  rw [Ordering.swap_then, ← hf, ← hg]

theorem thenCmp_congr {α : Type} {f g : α → α → Ordering}
    (hfc : ∀ a b, f a b = .eq → ∀ d, f a d = f b d)
    (hgc : ∀ a b, g a b = .eq → ∀ d, g a d = g b d)
    (a b : α) (h : (f a b).then (g a b) = .eq) (d : α) :
    (f a d).then (g a d) = (f b d).then (g b d) := by
  obtain ⟨h1, h2⟩ := Ordering.then_eq_eq.mp h
  rw [hfc a b h1 d, hgc a b h2 d]

theorem thenCmp_lt_trans {α : Type} {f g : α → α → Ordering}
    (hfs : ∀ a b, f a b = (f b a).swap)
    (hfc : ∀ a b, f a b = .eq → ∀ d, f a d = f b d)
    (hft : ∀ a b d, f a b = .lt → f b d = .lt → f a d = .lt)
    (hgt : ∀ a b d, g a b = .lt → g b d = .lt → g a d = .lt)
    (a b d : α) (h1 : (f a b).then (g a b) = .lt) (h2 : (f b d).then (g b d) = .lt) :
    (f a d).then (g a d) = .lt := by
  have hfcr : ∀ x y, f x y = .eq → ∀ z, f z x = f z y := by
    intro x y hxy z
    have hyx : f y x = .eq := by rw [hfs y x, hxy]; rfl
    rw [hfs z x, hfs z y, hfc y x hyx z]
  cases hab : f a b with
  | gt => rw [hab] at h1; cases h1
  | lt =>
    cases hbd : f b d with
    | gt => rw [hbd] at h2; cases h2
    | lt => rw [hft a b d hab hbd]; rfl
    | eq =>
      have had : f a d = .lt := by rw [← hfcr b d hbd a]; exact hab
      rw [had]; rfl
  | eq =>
    rw [hab] at h1
    have h1g : g a b = .lt := h1
    cases hbd : f b d with
    | gt => rw [hbd] at h2; cases h2
    | lt =>
      have had : f a d = .lt := by rw [hfc a b hab d]; exact hbd
      rw [had]; rfl
    | eq =>
      rw [hbd] at h2
      have h2g : g b d = .lt := h2
      have had : f a d = .eq := by rw [hfc a b hab d]; exact hbd
      rw [had]
      exact hgt a b d h1g h2g

theorem primCmp_symm (a b : FsPrim) : primCmp a b = (primCmp b a).swap := by
  have hs3 : ∀ x y : FsPrim,
      (intCmp x.keyNum2 y.keyNum2).then (strCmp x.keyStr y.keyStr)
        = ((intCmp y.keyNum2 x.keyNum2).then (strCmp y.keyStr x.keyStr)).swap :=
    fun x y => thenCmp_symm (fun u v => intCmp_symm u.keyNum2 v.keyNum2)
      (fun u v => strCmp_symm u.keyStr v.keyStr) x y
  have hs2 : ∀ x y : FsPrim,
      (intCmp x.keyNum1 y.keyNum1).then
          ((intCmp x.keyNum2 y.keyNum2).then (strCmp x.keyStr y.keyStr))
        = ((intCmp y.keyNum1 x.keyNum1).then
            ((intCmp y.keyNum2 x.keyNum2).then (strCmp y.keyStr x.keyStr))).swap :=
    fun x y => thenCmp_symm (fun u v => intCmp_symm u.keyNum1 v.keyNum1) hs3 x y
  exact thenCmp_symm (fun u v => natCmp_symm u.typeRank v.typeRank) hs2 a b

theorem primCmp_congr (a b : FsPrim) (h : primCmp a b = .eq) (d : FsPrim) :
    primCmp a d = primCmp b d := by
  have hcr : ∀ u v : FsPrim, natCmp u.typeRank v.typeRank = .eq →
      ∀ z : FsPrim, natCmp u.typeRank z.typeRank = natCmp v.typeRank z.typeRank :=
    fun u v huv z => by rw [natCmp_eq huv]
  have hc1 : ∀ u v : FsPrim, intCmp u.keyNum1 v.keyNum1 = .eq →
      ∀ z : FsPrim, intCmp u.keyNum1 z.keyNum1 = intCmp v.keyNum1 z.keyNum1 :=
    fun u v huv z => by rw [intCmp_eq huv]
  have hc2 : ∀ u v : FsPrim, intCmp u.keyNum2 v.keyNum2 = .eq →
      ∀ z : FsPrim, intCmp u.keyNum2 z.keyNum2 = intCmp v.keyNum2 z.keyNum2 :=
    fun u v huv z => by rw [intCmp_eq huv]
  have hc4 : ∀ u v : FsPrim, strCmp u.keyStr v.keyStr = .eq →
      ∀ z : FsPrim, strCmp u.keyStr z.keyStr = strCmp v.keyStr z.keyStr :=
    fun u v huv z => by rw [strCmp_eq huv]
  have hc3 : ∀ x y : FsPrim,
      (intCmp x.keyNum2 y.keyNum2).then (strCmp x.keyStr y.keyStr) = .eq →
      ∀ z : FsPrim, (intCmp x.keyNum2 z.keyNum2).then (strCmp x.keyStr z.keyStr)
        = (intCmp y.keyNum2 z.keyNum2).then (strCmp y.keyStr z.keyStr) :=
    fun x y hxy z => thenCmp_congr hc2 hc4 x y hxy z
  have hc23 : ∀ x y : FsPrim,
      (intCmp x.keyNum1 y.keyNum1).then
          ((intCmp x.keyNum2 y.keyNum2).then (strCmp x.keyStr y.keyStr)) = .eq →
      ∀ z : FsPrim, (intCmp x.keyNum1 z.keyNum1).then
          ((intCmp x.keyNum2 z.keyNum2).then (strCmp x.keyStr z.keyStr))
        = (intCmp y.keyNum1 z.keyNum1).then
            ((intCmp y.keyNum2 z.keyNum2).then (strCmp y.keyStr z.keyStr)) :=
    fun x y hxy z => thenCmp_congr hc1 hc3 x y hxy z
  have hx : (natCmp a.typeRank b.typeRank).then
      ((intCmp a.keyNum1 b.keyNum1).then
        ((intCmp a.keyNum2 b.keyNum2).then (strCmp a.keyStr b.keyStr))) = .eq := h
  exact thenCmp_congr hcr hc23 a b hx d

theorem primCmp_lt_trans (a b d : FsPrim) (h1 : primCmp a b = .lt) (h2 : primCmp b d = .lt) :
    primCmp a d = .lt := by
  have hs1 : ∀ u v : FsPrim, intCmp u.keyNum1 v.keyNum1 = (intCmp v.keyNum1 u.keyNum1).swap :=
    fun u v => intCmp_symm u.keyNum1 v.keyNum1
  have hs2 : ∀ u v : FsPrim, intCmp u.keyNum2 v.keyNum2 = (intCmp v.keyNum2 u.keyNum2).swap :=
    fun u v => intCmp_symm u.keyNum2 v.keyNum2
  have hc1 : ∀ u v : FsPrim, intCmp u.keyNum1 v.keyNum1 = .eq →
      ∀ z : FsPrim, intCmp u.keyNum1 z.keyNum1 = intCmp v.keyNum1 z.keyNum1 :=
    fun u v huv z => by rw [intCmp_eq huv]
  have hc2 : ∀ u v : FsPrim, intCmp u.keyNum2 v.keyNum2 = .eq →
      ∀ z : FsPrim, intCmp u.keyNum2 z.keyNum2 = intCmp v.keyNum2 z.keyNum2 :=
    fun u v huv z => by rw [intCmp_eq huv]
  have ht1 : ∀ u v w : FsPrim, intCmp u.keyNum1 v.keyNum1 = .lt →
      intCmp v.keyNum1 w.keyNum1 = .lt → intCmp u.keyNum1 w.keyNum1 = .lt :=
    fun u v w => intCmp_lt_trans
  have ht2 : ∀ u v w : FsPrim, intCmp u.keyNum2 v.keyNum2 = .lt →
      intCmp v.keyNum2 w.keyNum2 = .lt → intCmp u.keyNum2 w.keyNum2 = .lt :=
    fun u v w => intCmp_lt_trans
  have ht4 : ∀ u v w : FsPrim, strCmp u.keyStr v.keyStr = .lt →
      strCmp v.keyStr w.keyStr = .lt → strCmp u.keyStr w.keyStr = .lt :=
    fun u v w => strCmp_lt_trans
  have ht3 : ∀ x y z : FsPrim,
      (intCmp x.keyNum2 y.keyNum2).then (strCmp x.keyStr y.keyStr) = .lt →
      (intCmp y.keyNum2 z.keyNum2).then (strCmp y.keyStr z.keyStr) = .lt →
      (intCmp x.keyNum2 z.keyNum2).then (strCmp x.keyStr z.keyStr) = .lt :=
    fun x y z => thenCmp_lt_trans hs2 hc2 ht2 ht4 x y z
  have ht23 : ∀ x y z : FsPrim,
      (intCmp x.keyNum1 y.keyNum1).then
          ((intCmp x.keyNum2 y.keyNum2).then (strCmp x.keyStr y.keyStr)) = .lt →
      (intCmp y.keyNum1 z.keyNum1).then
          ((intCmp y.keyNum2 z.keyNum2).then (strCmp y.keyStr z.keyStr)) = .lt →
      (intCmp x.keyNum1 z.keyNum1).then
          ((intCmp x.keyNum2 z.keyNum2).then (strCmp x.keyStr z.keyStr)) = .lt :=
    fun x y z => thenCmp_lt_trans hs1 hc1 ht1 ht3 x y z
  have hsr : ∀ u v : FsPrim, natCmp u.typeRank v.typeRank = (natCmp v.typeRank u.typeRank).swap :=
    fun u v => natCmp_symm u.typeRank v.typeRank
  have hcr : ∀ u v : FsPrim, natCmp u.typeRank v.typeRank = .eq →
      ∀ z : FsPrim, natCmp u.typeRank z.typeRank = natCmp v.typeRank z.typeRank :=
    fun u v huv z => by rw [natCmp_eq huv]
  have htr : ∀ u v w : FsPrim, natCmp u.typeRank v.typeRank = .lt →
      natCmp v.typeRank w.typeRank = .lt → natCmp u.typeRank w.typeRank = .lt :=
    fun u v w => natCmp_lt_trans
  have h1x : (natCmp a.typeRank b.typeRank).then
      ((intCmp a.keyNum1 b.keyNum1).then
        ((intCmp a.keyNum2 b.keyNum2).then (strCmp a.keyStr b.keyStr))) = .lt := h1
  have h2x : (natCmp b.typeRank d.typeRank).then
      ((intCmp b.keyNum1 d.keyNum1).then
        ((intCmp b.keyNum2 d.keyNum2).then (strCmp b.keyStr d.keyStr))) = .lt := h2
  exact thenCmp_lt_trans hsr hcr htr ht23 a b d h1x h2x

theorem chainCmp_symm {α : Type} {cs : List (α → α → Ordering)}
    (h : ∀ c ∈ cs, ∀ a b, c a b = (c b a).swap) :
    ∀ a b, chainCmp cs a b = (chainCmp cs b a).swap := by
  induction cs with
  | nil => intro a b; rfl
  | cons c cs ih =>
    intro a b
    show (c a b).then (chainCmp cs a b) = ((c b a).then (chainCmp cs b a)).swap
    rw [Ordering.swap_then, ← h c (List.mem_cons_self c cs) a b,
      ← ih (fun c2 hc2 => h c2 (List.mem_cons_of_mem c hc2)) a b]

theorem chainCmp_refl {α : Type} {cs : List (α → α → Ordering)}
    (h : ∀ c ∈ cs, ∀ a b, c a b = (c b a).swap) (a : α) : chainCmp cs a a = .eq :=
  ordering_eq_of_eq_swap (chainCmp_symm h a a)

theorem chainCmp_eq_all {α : Type} {cs : List (α → α → Ordering)} {a b : α}
    (h : chainCmp cs a b = .eq) : ∀ c ∈ cs, c a b = .eq := by
  induction cs with
  | nil => intro c hc; cases hc
  | cons c2 cs ih =>
    have h2 := Ordering.then_eq_eq.mp h
    intro c hc
    rcases List.mem_cons.mp hc with rfl | hc2
    · exact h2.1
    · exact ih h2.2 c hc2

theorem chainCmp_congr {α : Type} {cs : List (α → α → Ordering)}
    (h : ∀ c ∈ cs, ∀ a b, c a b = .eq → ∀ d, c a d = c b d) :
    ∀ a b, chainCmp cs a b = .eq → ∀ d, chainCmp cs a d = chainCmp cs b d := by
  induction cs with
  | nil => intro a b _ d; rfl
  | cons c cs ih =>
    intro a b hab d
    exact thenCmp_congr (h c (List.mem_cons_self c cs))
      (ih (fun c2 hc2 => h c2 (List.mem_cons_of_mem c hc2))) a b hab d

theorem chainCmp_lt_trans {α : Type} {cs : List (α → α → Ordering)}
    (hs : ∀ c ∈ cs, ∀ a b, c a b = (c b a).swap)
    (hc : ∀ c ∈ cs, ∀ a b, c a b = .eq → ∀ d, c a d = c b d)
    (ht : ∀ c ∈ cs, ∀ a b d, c a b = .lt → c b d = .lt → c a d = .lt) :
    ∀ a b d, chainCmp cs a b = .lt → chainCmp cs b d = .lt → chainCmp cs a d = .lt := by
  induction cs with
  | nil => intro a b d h1 _; cases h1
  | cons c cs ih =>
    intro a b d h1 h2
    exact thenCmp_lt_trans (hs c (List.mem_cons_self c cs)) (hc c (List.mem_cons_self c cs))
      (ht c (List.mem_cons_self c cs))
      (ih (fun c2 hc2 => hs c2 (List.mem_cons_of_mem c hc2))
        (fun c2 hc2 => hc c2 (List.mem_cons_of_mem c hc2))
        (fun c2 hc2 => ht c2 (List.mem_cons_of_mem c hc2)))
      a b d h1 h2

theorem orderComps_symm (ord : List (String × Bool)) :
    ∀ c ∈ orderComps ord, ∀ a b, c a b = (c b a).swap := by
  intro c hc
  unfold orderComps at hc
  rcases List.mem_append.mp hc with hm | hm
  · obtain ⟨ob, _, rfl⟩ := List.mem_map.mp hm
    intro a b
    by_cases hd : ob.2 <;> simp only [hd, if_true, if_false, Bool.false_eq_true] <;>
      first
        | exact primCmp_symm (fieldVal ob.1 b) (fieldVal ob.1 a)
        | exact primCmp_symm (fieldVal ob.1 a) (fieldVal ob.1 b)
  · rw [List.mem_singleton] at hm
    subst hm
    intro a b
    exact strCmp_symm a.2 b.2

theorem orderComps_congr (ord : List (String × Bool)) :
    ∀ c ∈ orderComps ord, ∀ a b, c a b = .eq → ∀ d, c a d = c b d := by
  intro c hc
  unfold orderComps at hc
  rcases List.mem_append.mp hc with hm | hm
  · obtain ⟨ob, _, rfl⟩ := List.mem_map.mp hm
    intro a b hab d
    by_cases hd : ob.2 <;> simp only [hd, if_true, if_false, Bool.false_eq_true] at hab ⊢
    · have hswap : primCmp (fieldVal ob.1 a) (fieldVal ob.1 b) = .eq := by
        rw [primCmp_symm, hab]; rfl
      rw [primCmp_symm (fieldVal ob.1 d) (fieldVal ob.1 a),
        primCmp_symm (fieldVal ob.1 d) (fieldVal ob.1 b),
        primCmp_congr (fieldVal ob.1 a) (fieldVal ob.1 b) hswap (fieldVal ob.1 d)]
    · exact primCmp_congr (fieldVal ob.1 a) (fieldVal ob.1 b) hab (fieldVal ob.1 d)
  · rw [List.mem_singleton] at hm
    subst hm
    intro a b hab d
    have hab2 : strCmp a.2 b.2 = .eq := hab
    show strCmp a.2 d.2 = strCmp b.2 d.2
    rw [strCmp_eq hab2]

theorem orderComps_lt_trans (ord : List (String × Bool)) :
    ∀ c ∈ orderComps ord, ∀ a b d, c a b = .lt → c b d = .lt → c a d = .lt := by
  intro c hc
  unfold orderComps at hc
  rcases List.mem_append.mp hc with hm | hm
  · obtain ⟨ob, _, rfl⟩ := List.mem_map.mp hm
    intro a b d h1 h2
    by_cases hd : ob.2 <;> simp only [hd, if_true, if_false, Bool.false_eq_true] at h1 h2 ⊢
    · exact primCmp_lt_trans (fieldVal ob.1 d) (fieldVal ob.1 b) (fieldVal ob.1 a) h2 h1
    · exact primCmp_lt_trans (fieldVal ob.1 a) (fieldVal ob.1 b) (fieldVal ob.1 d) h1 h2
  · rw [List.mem_singleton] at hm
    subst hm
    intro a b d h1 h2
    exact strCmp_lt_trans h1 h2

theorem entryCmp_symm (ord : List (String × Bool)) (a b : KeySrc) :
    entryCmp ord a b = (entryCmp ord b a).swap :=
  chainCmp_symm (orderComps_symm ord) a b

theorem entryCmp_refl (ord : List (String × Bool)) (a : KeySrc) : entryCmp ord a a = .eq :=
  chainCmp_refl (orderComps_symm ord) a

theorem entryCmp_congr (ord : List (String × Bool)) (a b : KeySrc)
    (h : entryCmp ord a b = .eq) (d : KeySrc) : entryCmp ord a d = entryCmp ord b d :=
  chainCmp_congr (orderComps_congr ord) a b h d

theorem entryCmp_lt_trans (ord : List (String × Bool)) (a b d : KeySrc)
    (h1 : entryCmp ord a b = .lt) (h2 : entryCmp ord b d = .lt) : entryCmp ord a d = .lt :=
  chainCmp_lt_trans (orderComps_symm ord) (orderComps_congr ord) (orderComps_lt_trans ord)
    a b d h1 h2

theorem entryCmp_eq_ids (ord : List (String × Bool)) (a b : KeySrc)
    (h : entryCmp ord a b = .eq) : a.2 = b.2 := by
  have hmem : (fun x y : KeySrc => strCmp x.2 y.2) ∈ orderComps ord := by
    unfold orderComps
    exact List.mem_append_right _ (List.mem_singleton.mpr rfl)
  exact strCmp_eq (chainCmp_eq_all h _ hmem)

theorem entryCmp_le_trans (ord : List (String × Bool)) (a b d : KeySrc)
    (h1 : entryCmp ord a b ≠ .gt) (h2 : entryCmp ord b d ≠ .gt) : entryCmp ord a d ≠ .gt := by
  cases hab : entryCmp ord a b with
  | gt => exact absurd hab h1
  | lt =>
    cases hbd : entryCmp ord b d with
    | gt => exact absurd hbd h2
    | lt => rw [entryCmp_lt_trans ord a b d hab hbd]; intro hx; cases hx
    | eq =>
      have hdb : entryCmp ord d b = .eq := by rw [entryCmp_symm, hbd]; rfl
      have had : entryCmp ord a d = entryCmp ord a b := by
        have h3 := entryCmp_congr ord b d hbd a
        have h4 := entryCmp_symm ord a b
        have h5 := entryCmp_symm ord a d
        rw [h5, h4, ← h3]
      rw [had, hab]
      intro hx; cases hx
  | eq =>
    have had : entryCmp ord a d = entryCmp ord b d := entryCmp_congr ord a b hab d
    rw [had]
    exact h2

theorem getQuery_plain {cq : CollectionQuery} {meta : NestMetadataStorage} {target : FnVal}
    {cp : String} (hcq : cq.options = {}) (hcp : meta.getCollectionPath target = .ok cp) :
    cq.getQuery meta target = .ok { source := .collection cp } := by
  unfold CollectionQuery.getQuery
  rw [hcq]
  simp [strTruthy, hcp]

theorem plainWhere_eq (q : FsQuery) (fc : String × FindCondValue) :
    plainWhere q fc.1 fc.2 = { q with wheres := q.wheres ++ [clauseOfCond fc] } := by
  cases h : fc.2 <;> simp [plainWhere, clauseOfCond, FsQuery.whereQ, h]

theorem findWhereStep_plain {meta : NestMetadataStorage} {target : FnVal}
    (hrel : meta.relations.filter (fun r => r.target == target) = [])
    (q : FsQuery) (fc : String × FindCondValue) :
    findWhereStep meta target q fc = .ok (plainWhere q fc.1 fc.2) := by
  unfold findWhereStep
  rw [hrel]
  rfl

theorem findOneWhereStep_plain {meta : NestMetadataStorage} {target : FnVal}
    (hrel : meta.relations.filter (fun r => r.target == target) = [])
    (q : FsQuery) (fc : String × FindCondValue) :
    findOneWhereStep meta target q fc = .ok (plainWhere q fc.1 fc.2) := by
  unfold findOneWhereStep
  rw [hrel]
  rfl

theorem applyWheresFind_plain {meta : NestMetadataStorage} {target : FnVal}
    (hrel : meta.relations.filter (fun r => r.target == target) = []) :
    ∀ (w : FindConditions) (q : FsQuery),
    applyWheresFind meta target w q = .ok { q with wheres := q.wheres ++ w.map clauseOfCond } := by
  intro w
  induction w with
  | nil => intro q; simp [applyWheresFind]
  | cons fc w ih =>
    intro q
    unfold applyWheresFind
    rw [findWhereStep_plain hrel, plainWhere_eq]
    simp only
    rw [ih]
    simp

theorem processRelations_plain {meta : NestMetadataStorage} {st : Store} {target : FnVal}
    {cp idp : String} {data : DataObject} {index : Nat}
    (hrel : meta.relations.filter (fun r => r.target == target) = []) :
    ∀ (rels : List String) (stt : RelState),
    processRelations meta st target cp idp data index rels stt = .ok stt := by
  intro rels
  induction rels with
  | nil => intro stt; rfl
  | cons r rs ih =>
    intro stt
    unfold processRelations processRelation
    rw [hrel]
    simp only [List.find?_nil]
    exact ih stt

theorem processDocs_plain {meta : NestMetadataStorage} {st : Store} {target : FnVal}
    {cp idp : String} {rels : List String}
    (hrel : meta.relations.filter (fun r => r.target == target) = []) :
    ∀ (snaps : List DocumentSnapshot) (index : Nat) (stt : RelState),
    processDocs meta st target cp idp rels (snaps.map some) index stt
      = .ok (snaps.map (fun s => some (mkData idp s)), stt) := by
  intro snaps
  induction snaps with
  | nil => intro index stt; rfl
  | cons s snaps ih =>
    intro index stt
    have hpr : (if rels.length > 0 then
        processRelations meta st target cp idp (mkData idp s) index rels stt
        else .ok stt) = .ok stt := by
      split
      · exact processRelations_plain hrel rels stt
      · rfl
    show processDocs meta st target cp idp rels (some s :: snaps.map some) index stt = _
    simp only [processDocs, hpr, ih (index+1) stt, List.map_cons]

theorem loadRelations_plain {meta : NestMetadataStorage} {st : Store} {target : FnVal}
    {cp idp : String}
    (hcp : meta.getCollectionPath target = .ok cp)
    (hid : meta.getIdPropName target = .ok idp)
    (hrel : meta.relations.filter (fun r => r.target == target) = [])
    (snaps : List DocumentSnapshot) (rels : List String) :
    CollectionQuery.loadRelations meta st target (snaps.map some) rels
      = .ok (snaps.map (fun s => some (transformToClass target (mkData idp s)))) := by
  unfold CollectionQuery.loadRelations
  rw [hid, hcp]
  simp only
  rw [processDocs_plain hrel snaps 0 ⟨[], []⟩]
  simp [List.map_map, Function.comp]

theorem find_plain {cq : CollectionQuery} {meta : NestMetadataStorage} {st : Store}
    {target : FnVal} {cp idp : String}
    (hcq : cq.options = {}) (hcp : meta.getCollectionPath target = .ok cp)
    (hid : meta.getIdPropName target = .ok idp)
    (hrel : meta.relations.filter (fun r => r.target == target) = [])
    (o : FindManyOptions) :
    CollectionQuery.find cq meta st target (.options o)
      = .ok ((runQuery st (applyFindManyOptions (.options o)
            { source := .collection cp, wheres := clausesOf o.whereC }).1).map
          (fun s => some (transformToClass target (mkData idp s)))) := by
  unfold CollectionQuery.find
  simp only [getQuery_plain hcq hcp]
  cases hw : o.whereC with
  | none =>
    simp only [getFindConditionsFromFindManyOptions, hw, clausesOf]
    exact loadRelations_plain hcp hid hrel _ _
  | some w =>
    simp only [getFindConditionsFromFindManyOptions, hw, clausesOf,
      applyWheresFind_plain hrel w, List.nil_append]
    exact loadRelations_plain hcp hid hrel _ _

theorem lookupF_map_set (fs : DataObject) (k : String) (v : FsVal)
    (h : fs.any (fun kv => kv.1 == k) = true) :
    lookupF (fs.map (fun kv => if kv.1 == k then (kv.1, v) else kv)) k = some v := by
  induction fs with
  | nil => cases h
  | cons kv fs ih =>
    by_cases hk : (kv.1 == k) = true
    · simp only [List.map_cons, if_pos hk]
      unfold lookupF
      rw [List.find?_cons_of_pos _ (by simpa using hk)]
      rfl
    · have hk2 : (kv.1 == k) = false := by
        cases hx : (kv.1 == k)
        · rfl
        · exact absurd hx hk
      have h2 : fs.any (fun kv => kv.1 == k) = true := by
        rw [List.any_cons] at h
        simpa [hk2] using h
      simp only [List.map_cons, hk2, if_false, Bool.false_eq_true]
      unfold lookupF
      rw [List.find?_cons_of_neg _ (by simp [hk2])]
      exact ih h2

theorem lookupF_append_single (fs : DataObject) (k : String) (v : FsVal)
    (h : fs.any (fun kv => kv.1 == k) = false) :
    lookupF (fs ++ [(k, v)]) k = some v := by
  induction fs with
  | nil => simp [lookupF, List.find?]
  | cons kv fs ih =>
    rw [List.any_cons, Bool.or_eq_false_iff] at h
    show lookupF (kv :: (fs ++ [(k, v)])) k = some v
    unfold lookupF
    rw [List.find?_cons_of_neg _ (by simp [h.1])]
    exact ih h.2

theorem lookupF_setField_self (fs : DataObject) (k : String) (v : FsVal) :
    lookupF (setField fs k v) k = some v := by
  unfold setField
  cases h : fs.any (fun kv => kv.1 == k)
  · rw [if_neg (by simp)]
    exact lookupF_append_single fs k v h
  · rw [if_pos rfl]
    exact lookupF_map_set fs k v h

theorem lookupF_conv (fs : DataObject) (k : String) :
    lookupF (convertToJsObject fs) k = (lookupF fs k).map convVal := by
  unfold convertToJsObject
  induction fs with
  | nil => rfl
  | cons kv fs ih =>
    by_cases hk : (kv.1 == k) = true
    · simp [lookupF, List.find?_cons, hk]
    · have hk2 : (kv.1 == k) = false := by
        cases hx : (kv.1 == k)
        · rfl
        · exact absurd hx hk
      simp only [List.map_cons]
      unfold lookupF
      rw [List.find?_cons_of_neg _ (by simp [hk2]), List.find?_cons_of_neg _ (by simp [hk2])]
      exact ih

theorem entity_id_lookup (target : FnVal) (idp : String) (s : DocumentSnapshot) :
    lookupF (transformToClass target (mkData idp s)) idp = some (.prim (.str s.id)) := by
  unfold transformToClass mkData
  rw [lookupF_conv, lookupF_setField_self]
  rfl

theorem buildTokenPayload_options (o : FindManyOptions) :
    buildTokenPayload (.options o)
      = { whereC := o.whereC, selectF := o.selectF, order := o.order,
          limit := match o.limit with
            | some n => if n = 0 then none else some n
            | none => none,
          lastDocumentId := none } := by
  unfold buildTokenPayload
  simp only [getFindConditionsFromFindManyOptions]
  cases hw : o.whereC <;> cases hs : o.selectF <;> cases hord : o.order <;>
    cases hl : o.limit <;> simp only [hw, hs, hord, hl] <;>
    first
      | rfl
      | (rename_i n; by_cases hn : n = 0 <;> simp [hn])

theorem findAndToken_cases {cq : CollectionQuery} {meta : NestMetadataStorage} {st : Store}
    {target : FnVal} {cp idp : String}
    (hcq : cq.options = {}) (hcp : meta.getCollectionPath target = .ok cp)
    (hid : meta.getIdPropName target = .ok idp)
    (hrel : meta.relations.filter (fun r => r.target == target) = [])
    (o : FindManyOptions) (snaps : List DocumentSnapshot) (ents : List (Option Entity))
    (hsnaps : snaps = runQuery st (applyFindManyOptions (.options o)
        { source := QuerySource.collection cp, wheres := clausesOf o.whereC }).1)
    (hents : ents = snaps.map (fun s => some (transformToClass target (mkData idp s)))) :
    (¬ (∃ n, o.limit = some n ∧ n ≠ 0 ∧ o.order ≠ none ∧ n ≤ ents.length) →
        CollectionQuery.findAndToken cq meta st target (.options o) = .ok (none, ents))
  ∧ (∀ n, o.limit = some n → n ≠ 0 → o.order ≠ none → n ≤ ents.length →
      ∃ s, snaps.getLast? = some s
        ∧ CollectionQuery.findAndToken cq meta st target (.options o)
          = .ok (some (jsonwebtokenSign
              { whereC := o.whereC, selectF := o.selectF, order := o.order,
                limit := some n, lastDocumentId := some s.id } "fireorm"), ents)) := by
  have hfind : CollectionQuery.find cq meta st target (.options o) = .ok ents := by
    rw [hents, hsnaps]
    exact find_plain hcq hcp hid hrel o
  have hA : ((buildTokenPayload (.options o)).limit = none
        ∨ (buildTokenPayload (.options o)).order = none
        ∨ ((buildTokenPayload (.options o)).limit.getD 0) > ents.length) →
      CollectionQuery.findAndToken cq meta st target (.options o) = .ok (none, ents) := by
    intro hc
    unfold CollectionQuery.findAndToken
    simp only [hfind]
    rw [if_pos hc]
  constructor
  · intro hnot
    apply hA
    by_contra hcode
    push_neg at hcode
    obtain ⟨h1, h2, h3⟩ := hcode
    apply hnot
    rcases hl : o.limit with _ | n
    · exfalso
      apply h1
      rw [buildTokenPayload_options]
      simp [hl]
    · by_cases hn : n = 0
      · exfalso
        apply h1
        rw [buildTokenPayload_options]
        simp [hl, hn]
      · have htokL : (buildTokenPayload (.options o)).limit = some n := by
          rw [buildTokenPayload_options]
          simp [hl, hn]
        refine ⟨n, rfl, hn, ?_, ?_⟩
        · intro hordnone
          apply h2
          rw [buildTokenPayload_options]
          simpa using hordnone
        · rw [htokL] at h3
          simpa using h3
  · intro n hl hn hord hlen
    have htokL : (buildTokenPayload (.options o)).limit = some n := by
      rw [buildTokenPayload_options]
      simp [hl, hn]
    have htokOrd : (buildTokenPayload (.options o)).order = o.order := by
      rw [buildTokenPayload_options]
    have hcond : ¬ ((buildTokenPayload (.options o)).limit = none
        ∨ (buildTokenPayload (.options o)).order = none
        ∨ ((buildTokenPayload (.options o)).limit.getD 0) > ents.length) := by
      rw [htokL, htokOrd]
      push_neg
      refine ⟨by simp, hord, ?_⟩
      simpa using hlen
    have hlenEq : ents.length = snaps.length := by
      rw [hents, List.length_map]
    obtain ⟨slast, hslast⟩ : ∃ s, snaps.getLast? = some s := by
      cases hg : snaps.getLast? with
      | some s => exact ⟨s, rfl⟩
      | none =>
        rw [List.getLast?_eq_none_iff] at hg
        rw [hg, List.length_nil] at hlenEq
        omega
    refine ⟨slast, hslast, ?_⟩
    have hEntsLast : ents.getLast?
        = some (some (transformToClass target (mkData idp slast))) := by
      rw [hents, List.getLast?_map, hslast]
      rfl
    unfold CollectionQuery.findAndToken
    simp only [hfind]
    rw [if_neg hcond]
    simp only [hid, hEntsLast]
    rw [entity_id_lookup]
    simp only [buildTokenPayload_options, jsValToString, jsPrimToString]
    simp [hl, hn]
    rfl

/-- C3: `findAndToken` resolves with exactly the entity list `find` returns
for the same options; it returns a defined token exactly when the options
carry a (truthy) limit and an order and at least `limit` documents came back;
and the defined token is the cursor signed with the fireorm secret encoding
the original query shape (where, select, order, limit) together with the id
of the last returned document. -/
theorem c3_find_and_token_shape (cq : CollectionQuery) (meta : NestMetadataStorage)
    (st : Store) (target : FnVal) (cp idp : String)
    (hcq : cq.options = {}) (hcp : meta.getCollectionPath target = .ok cp)
    (hid : meta.getIdPropName target = .ok idp)
    (hrel : meta.relations.filter (fun r => r.target == target) = [])
    (o : FindManyOptions) :
    ∃ ents, CollectionQuery.find cq meta st target (.options o) = .ok ents
      ∧ (¬ (∃ n, o.limit = some n ∧ n ≠ 0 ∧ o.order ≠ none ∧ n ≤ ents.length) →
          CollectionQuery.findAndToken cq meta st target (.options o) = .ok (none, ents))
      ∧ (∀ n, o.limit = some n → n ≠ 0 → o.order ≠ none → n ≤ ents.length →
          ∃ lastId elast, ents.getLast? = some (some elast)
            ∧ lookupF elast idp = some (.prim (.str lastId))
            ∧ CollectionQuery.findAndToken cq meta st target (.options o)
              = .ok (some (jsonwebtokenSign
                  { whereC := o.whereC, selectF := o.selectF, order := o.order,
                    limit := some n, lastDocumentId := some lastId } "fireorm"), ents)) := by
  have hcases := @findAndToken_cases cq meta st target cp idp hcq hcp hid hrel o _ _ rfl rfl
  refine ⟨_, find_plain hcq hcp hid hrel o, hcases.1, ?_⟩
  intro n hl hn hord hlen
  obtain ⟨s, hslast, hres⟩ := hcases.2 n hl hn hord hlen
  refine ⟨s.id, transformToClass target (mkData idp s), ?_, entity_id_lookup target idp s, hres⟩
  rw [List.getLast?_map, hslast]
  rfl

/-- Witness for C3 at a concrete store and options: four users, order by
age, limit two. -/
theorem c3_find_and_token_shape_witness :
    ∃ ents, CollectionQuery.find {} wPageMeta wPageStore (.cls "User") (.options wPageOptions)
        = .ok ents
      ∧ (¬ (∃ n, wPageOptions.limit = some n ∧ n ≠ 0 ∧ wPageOptions.order ≠ none
            ∧ n ≤ ents.length) →
          CollectionQuery.findAndToken {} wPageMeta wPageStore (.cls "User")
            (.options wPageOptions) = .ok (none, ents))
      ∧ (∀ n, wPageOptions.limit = some n → n ≠ 0 → wPageOptions.order ≠ none →
            n ≤ ents.length →
          ∃ lastId elast, ents.getLast? = some (some elast)
            ∧ lookupF elast "id" = some (.prim (.str lastId))
            ∧ CollectionQuery.findAndToken {} wPageMeta wPageStore (.cls "User")
                (.options wPageOptions)
              = .ok (some (jsonwebtokenSign
                  { whereC := wPageOptions.whereC, selectF := wPageOptions.selectF,
                    order := wPageOptions.order, limit := some n,
                    lastDocumentId := some lastId } "fireorm"), ents)) :=
  c3_find_and_token_shape {} wPageMeta wPageStore (.cls "User") "users" "id"
    rfl (by decide) (by decide) (by decide) wPageOptions


theorem jsonwebtokenVerify_some {t : SignedToken} {s : String} {p : TokenPayload}
    (h : jsonwebtokenVerify t s = some p) : p = t.payload := by
  unfold jsonwebtokenVerify at h
  split at h
  · cases h; rfl
  · cases h

/-- C4: `findByToken` rejects with the invalid-pagination-token error in
exactly three situations — token signature verification fails, the decoded
payload lacks a truthy `lastDocumentId` (absent or the empty string), or the
document named by `lastDocumentId` no longer exists in the collection — and
whenever none of those hold it resolves with a page (a token/list pair),
never raising that error. -/
theorem c4_find_by_token_errors (cq : CollectionQuery) (meta : NestMetadataStorage)
    (st : Store) (target : FnVal) (cp idp : String)
    (hcq : cq.options = {}) (hcp : meta.getCollectionPath target = .ok cp)
    (hid : meta.getIdPropName target = .ok idp)
    (hrel : meta.relations.filter (fun r => r.target == target) = [])
    (token : SignedToken) :
    (CollectionQuery.findByToken cq meta st target token = .error .invalidPaginationToken
      ↔ (jsonwebtokenVerify token "fireorm" = none
          ∨ token.payload.lastDocumentId = none
          ∨ token.payload.lastDocumentId = some ""
          ∨ (st.getDoc cp (token.payload.lastDocumentId.getD "")).existsQ = false))
  ∧ (¬ (jsonwebtokenVerify token "fireorm" = none
          ∨ token.payload.lastDocumentId = none
          ∨ token.payload.lastDocumentId = some ""
          ∨ (st.getDoc cp (token.payload.lastDocumentId.getD "")).existsQ = false) →
      ∃ tok2 page,
        CollectionQuery.findByToken cq meta st target token = .ok (tok2, page)) := by
  cases hv : jsonwebtokenVerify token "fireorm" with
  | none =>
    have hfb : CollectionQuery.findByToken cq meta st target token
        = .error .invalidPaginationToken := by
      simp only [CollectionQuery.findByToken, hv]
    exact ⟨⟨fun _ => Or.inl rfl, fun _ => hfb⟩, fun hnot => absurd (Or.inl rfl) hnot⟩
  | some p =>
    have hp : p = token.payload := jsonwebtokenVerify_some hv
    subst hp
    by_cases hld : token.payload.lastDocumentId = none
        ∨ token.payload.lastDocumentId = some ""
    · have hfb : CollectionQuery.findByToken cq meta st target token
          = .error .invalidPaginationToken := by
        simp only [CollectionQuery.findByToken, hv]
        rw [if_pos hld]
      refine ⟨⟨fun _ => ?_, fun _ => hfb⟩, fun hnot => ?_⟩
      · rcases hld with h | h
        · exact Or.inr (Or.inl h)
        · exact Or.inr (Or.inr (Or.inl h))
      · rcases hld with h | h
        · exact absurd (Or.inr (Or.inl h)) hnot
        · exact absurd (Or.inr (Or.inr (Or.inl h))) hnot
    · by_cases hex : (st.getDoc cp (token.payload.lastDocumentId.getD "")).existsQ = true
      · have hfb : CollectionQuery.findByToken cq meta st target token
            = CollectionQuery.findAndToken cq meta st target (.options
              { whereC := token.payload.whereC, selectF := token.payload.selectF,
                order := token.payload.order, limit := token.payload.limit,
                startAfter := some (st.getDoc cp (token.payload.lastDocumentId.getD "")) }) := by
          simp only [CollectionQuery.findByToken, hv, hcp]
          rw [if_neg hld, if_pos hex]
        have hcases := @findAndToken_cases cq meta st target cp idp hcq hcp hid hrel
          { whereC := token.payload.whereC, selectF := token.payload.selectF,
            order := token.payload.order, limit := token.payload.limit,
            startAfter := some (st.getDoc cp (token.payload.lastDocumentId.getD "")) }
          _ _ rfl rfl
        have hok : ∃ tok2 page,
            CollectionQuery.findByToken cq meta st target token = .ok (tok2, page) := by
          by_cases hC : ∃ n,
              ({ whereC := token.payload.whereC, selectF := token.payload.selectF,
                 order := token.payload.order, limit := token.payload.limit,
                 startAfter := some (st.getDoc cp (token.payload.lastDocumentId.getD "")) }
                   : FindManyOptions).limit = some n ∧ n ≠ 0
              ∧ ({ whereC := token.payload.whereC, selectF := token.payload.selectF,
                   order := token.payload.order, limit := token.payload.limit,
                   startAfter := some (st.getDoc cp (token.payload.lastDocumentId.getD "")) }
                     : FindManyOptions).order ≠ none
              ∧ n ≤ (List.map
                  (fun s => some (transformToClass target (mkData idp s)))
                  (runQuery st (applyFindManyOptions (.options
                    { whereC := token.payload.whereC, selectF := token.payload.selectF,
                      order := token.payload.order, limit := token.payload.limit,
                      startAfter := some (st.getDoc cp
                        (token.payload.lastDocumentId.getD "")) })
                    { source := QuerySource.collection cp,
                      wheres := clausesOf token.payload.whereC }).1)).length
          · obtain ⟨n, h1, h2, h3, h4⟩ := hC
            obtain ⟨s, _, hres⟩ := hcases.2 n h1 h2 h3 h4
            exact ⟨_, _, hfb.trans hres⟩
          · exact ⟨_, _, hfb.trans (hcases.1 hC)⟩
        obtain ⟨tok2, page, hokEq⟩ := hok
        refine ⟨⟨fun hx => ?_, fun hx => ?_⟩, fun _ => ⟨tok2, page, hokEq⟩⟩
        · rw [hokEq] at hx
          cases hx
        · exfalso
          rcases hx with h | h | h | h
          · exact Option.noConfusion h
          · exact hld (Or.inl h)
          · exact hld (Or.inr h)
          · rw [h] at hex; exact Bool.noConfusion hex
      · have hexF : (st.getDoc cp (token.payload.lastDocumentId.getD "")).existsQ = false := by
          cases hb : (st.getDoc cp (token.payload.lastDocumentId.getD "")).existsQ
          · rfl
          · exact absurd hb hex
        have hfb : CollectionQuery.findByToken cq meta st target token
            = .error .invalidPaginationToken := by
          simp only [CollectionQuery.findByToken, hv, hcp]
          rw [if_neg hld, if_neg hex]
        refine ⟨⟨fun _ => Or.inr (Or.inr (Or.inr hexF)), fun _ => hfb⟩, fun hnot => ?_⟩
        exact absurd (Or.inr (Or.inr (Or.inr hexF))) hnot

theorem c4_find_by_token_errors_witness :
    (CollectionQuery.findByToken {} wPageMeta wPageStore (.cls "User") wToken
      = .error .invalidPaginationToken
      ↔ (jsonwebtokenVerify wToken "fireorm" = none
          ∨ wToken.payload.lastDocumentId = none
          ∨ wToken.payload.lastDocumentId = some ""
          ∨ (wPageStore.getDoc "users"
              (wToken.payload.lastDocumentId.getD "")).existsQ = false))
  ∧ (¬ (jsonwebtokenVerify wToken "fireorm" = none
          ∨ wToken.payload.lastDocumentId = none
          ∨ wToken.payload.lastDocumentId = some ""
          ∨ (wPageStore.getDoc "users"
              (wToken.payload.lastDocumentId.getD "")).existsQ = false) →
      ∃ tok2 page,
        CollectionQuery.findByToken {} wPageMeta wPageStore (.cls "User") wToken
          = .ok (tok2, page)) :=
  c4_find_by_token_errors {} wPageMeta wPageStore (.cls "User") "users" "id"
    rfl (by decide) (by decide) (by decide) wToken

theorem orderFold_shape : ∀ (ordl : List (String × Bool)) (q : FsQuery),
    ordl.foldl (fun q fb => q.orderByQ fb.1 fb.2) q = { q with orders := q.orders ++ ordl }
  | [], q => by simp
  | fb :: tl, q => by
    rw [List.foldl_cons, orderFold_shape tl]
    simp [FsQuery.orderByQ]

theorem applyMany_c2_nocursor (src : QuerySource) (W : List WhereClause)
    (w : Option FindConditions) (sel : Option (List String)) (ordl : List (String × Bool))
    (lim : Option Nat) (rel : Option (List String)) (hlim : ∀ m, lim = some m → m ≠ 0) :
    (applyFindManyOptions (.options
        { whereC := w, selectF := sel, order := some ordl, limit := lim,
          relations := rel })
      { source := src, wheres := W }).1
      = { source := src, wheres := W, selectFields := sel, orders := ordl,
          limitN := lim } := by
  unfold applyFindManyOptions
  cases sel <;> cases hl : lim <;>
    simp_all [FsQuery.selectQ, FsQuery.limitQ, orderFold_shape]

theorem applyMany_c2_cursor (src : QuerySource) (W : List WhereClause)
    (w : Option FindConditions) (sel : Option (List String)) (ordl : List (String × Bool))
    (lim : Option Nat) (c : DocumentSnapshot) (hlim : ∀ m, lim = some m → m ≠ 0) :
    (applyFindManyOptions (.options
        { whereC := w, selectF := sel, order := some ordl, limit := lim,
          startAfter := some c })
      { source := src, wheres := W }).1
      = { source := src, wheres := W, selectFields := sel, orders := ordl,
          limitN := lim, startC := some (c, false) } := by
  unfold applyFindManyOptions
  cases sel <;> cases hl : lim <;>
    simp_all [FsQuery.selectQ, FsQuery.limitQ, FsQuery.startAfterQ, orderFold_shape]

theorem runQuery_nolim_nocur (st : Store) (cp : String) (W : List WhereClause)
    (sel : Option (List String)) (ordl : List (String × Bool)) :
    runQuery st
        { source := .collection cp, wheres := W, selectFields := sel, orders := ordl }
      = (sortedDocs st cp W ordl).map (pageSnap sel) := rfl

theorem runQuery_lim_nocur (st : Store) (cp : String) (W : List WhereClause)
    (sel : Option (List String)) (ordl : List (String × Bool)) (n : Nat) :
    runQuery st
        { source := .collection cp, wheres := W, selectFields := sel, orders := ordl,
          limitN := some n }
      = ((sortedDocs st cp W ordl).take n).map (pageSnap sel) := rfl

theorem runQuery_lim_cur (st : Store) (cp : String) (W : List WhereClause)
    (sel : Option (List String)) (ordl : List (String × Bool)) (n : Nat)
    (c : DocumentSnapshot) :
    runQuery st
        { source := .collection cp, wheres := W, selectFields := sel, orders := ordl,
          limitN := some n, startC := some (c, false) }
      = (((sortedDocs st cp W ordl).filter
          (fun pd => startKeep false (entryCmp ordl (snapKeySrc c) (docKeySrc pd)))).take
          n).map (pageSnap sel) := rfl

theorem map_pageEnt (target : FnVal) (idp : String) (sel : Option (List String))
    (l : List (String × FsDoc)) :
    (l.map (pageSnap sel)).map (fun s => some (transformToClass target (mkData idp s)))
      = l.map (pageEnt target idp sel) := by
  rw [List.map_map]
  rfl

theorem find_id_of_nodup : ∀ {l : List FsDoc}, (l.map FsDoc.id).Nodup →
    ∀ {d : FsDoc}, d ∈ l → l.find? (fun x => x.id == d.id) = some d := by
  intro l
  induction l with
  | nil => intro _ d hd; cases hd
  | cons h t ih =>
    intro hnd d hd
    rw [List.map_cons, List.nodup_cons] at hnd
    rcases List.mem_cons.mp hd with rfl | hdt
    · simp [List.find?]
    · have hne : (h.id == d.id) = false := by
        rw [beq_eq_false_iff_ne]
        intro he
        exact hnd.1 (he ▸ List.mem_map_of_mem FsDoc.id hdt)
      rw [List.find?_cons_of_neg _ (by simp [hne]), ih hnd.2 hdt]

theorem getDoc_of_mem {st : Store} {cp : String} {d : FsDoc}
    (hnd : ((st.getColl cp).map FsDoc.id).Nodup) (hd : d ∈ st.getColl cp) :
    st.getDoc cp d.id = { collPath := cp, id := d.id, fieldsOpt := some d.fields } := by
  unfold Store.getDoc
  rw [find_id_of_nodup hnd hd]
  rfl

theorem snapKey_getDoc {st : Store} {cp : String} {pd : String × FsDoc}
    (hnd : ((st.getColl cp).map FsDoc.id).Nodup) (hd : pd.2 ∈ st.getColl cp) :
    snapKeySrc (st.getDoc cp pd.2.id) = docKeySrc pd := by
  rw [getDoc_of_mem hnd hd]
  rfl

theorem sortedDocs_mem {st : Store} {cp : String} {W : List WhereClause}
    {ordl : List (String × Bool)} {pd : String × FsDoc}
    (h : pd ∈ sortedDocs st cp W ordl) : pd.1 = cp ∧ pd.2 ∈ st.getColl cp := by
  have h2 : pd ∈ filteredDocs st cp W :=
    (List.Perm.mem_iff (List.perm_insertionSort _ _)).mp h
  unfold filteredDocs at h2
  have h3 := List.mem_of_mem_filter h2
  obtain ⟨d, hd, heq⟩ := List.mem_map.mp h3
  cases heq
  exact ⟨rfl, hd⟩

theorem sortedDocs_pairwise_lt (st : Store) (cp : String) (W : List WhereClause)
    (ordl : List (String × Bool))
    (hnd : ((st.getColl cp).map FsDoc.id).Nodup) :
    (sortedDocs st cp W ordl).Pairwise
      (fun a b => entryCmp ordl (docKeySrc a) (docKeySrc b) = .lt) := by
  haveI htot : IsTotal (String × FsDoc) (sortLE ordl) := by
    constructor
    intro a b
    cases hc : entryCmp ordl (docKeySrc a) (docKeySrc b) with
    | lt => exact Or.inl (by unfold sortLE; rw [hc]; intro hx; cases hx)
    | eq => exact Or.inl (by unfold sortLE; rw [hc]; intro hx; cases hx)
    | gt =>
      refine Or.inr ?_
      show entryCmp ordl (docKeySrc b) (docKeySrc a) ≠ .gt
      rw [entryCmp_symm, hc]
      intro hx; cases hx
  haveI htr : IsTrans (String × FsDoc) (sortLE ordl) :=
    ⟨fun a b c h1 h2 => entryCmp_le_trans ordl _ _ _ h1 h2⟩
  have hsorted : (sortedDocs st cp W ordl).Pairwise (sortLE ordl) :=
    List.sorted_insertionSort _ _
  have hperm : List.Perm (sortedDocs st cp W ordl) (filteredDocs st cp W) :=
    List.perm_insertionSort _ _
  have hndF : ((filteredDocs st cp W).map (fun pd => pd.2.id)).Nodup := by
    have hsub : List.Sublist ((filteredDocs st cp W).map (fun pd => pd.2.id))
        (((st.getColl cp).map (fun d => (cp, d))).map (fun pd => pd.2.id)) :=
      List.Sublist.map _ (List.filter_sublist _)
    have hmm : ((st.getColl cp).map (fun d => (cp, d))).map
        (fun pd : String × FsDoc => pd.2.id) = (st.getColl cp).map FsDoc.id := by
      rw [List.map_map]
      rfl
    rw [hmm] at hsub
    exact List.Nodup.sublist hsub hnd
  have hndS : ((sortedDocs st cp W ordl).map (fun pd => pd.2.id)).Nodup :=
    ((hperm.map _).nodup_iff).mpr hndF
  have hpne : (sortedDocs st cp W ordl).Pairwise (fun a b => a.2.id ≠ b.2.id) :=
    List.pairwise_map.mp hndS
  refine (hsorted.and hpne).imp ?_
  rintro a b ⟨hle, hne⟩
  cases hc : entryCmp ordl (docKeySrc a) (docKeySrc b) with
  | lt => rfl
  | eq => exact absurd (entryCmp_eq_ids ordl _ _ hc) hne
  | gt => exact absurd hc hle

theorem filter_after_last {ordl : List (String × Bool)}
    (A B : List (String × FsDoc)) (l0 : String × FsDoc)
    (hpw : (A ++ l0 :: B).Pairwise
      (fun a b => entryCmp ordl (docKeySrc a) (docKeySrc b) = .lt)) :
    (A ++ l0 :: B).filter
        (fun pd => startKeep false (entryCmp ordl (docKeySrc l0) (docKeySrc pd))) = B := by
  obtain ⟨hA, hlB, hAB⟩ := List.pairwise_append.mp hpw
  obtain ⟨hl0B, hB⟩ := List.pairwise_cons.mp hlB
  rw [List.filter_append]
  have hfA : A.filter
      (fun pd => startKeep false (entryCmp ordl (docKeySrc l0) (docKeySrc pd))) = [] := by
    rw [List.filter_eq_nil_iff]
    intro a ha
    have hal : entryCmp ordl (docKeySrc a) (docKeySrc l0) = .lt :=
      hAB a ha l0 (List.mem_cons_self _ _)
    have : entryCmp ordl (docKeySrc l0) (docKeySrc a) = .gt := by
      rw [entryCmp_symm, hal]
      rfl
    rw [this]
    intro hx; cases hx
  have hsl0 : (startKeep false (entryCmp ordl (docKeySrc l0) (docKeySrc l0))) = false := by
    rw [entryCmp_refl]
    rfl
  have hfB : B.filter
      (fun pd => startKeep false (entryCmp ordl (docKeySrc l0) (docKeySrc pd))) = B := by
    rw [List.filter_eq_self]
    intro b hb
    rw [hl0B b hb]
    rfl
  rw [hfA, List.filter_cons, hsl0]
  simp only [Bool.false_eq_true, if_false, hfB, List.nil_append]

theorem pagesFrom_c2 {cq : CollectionQuery} {meta : NestMetadataStorage} {st : Store}
    {target : FnVal} {cp idp : String}
    (hcq : cq.options = {}) (hcp : meta.getCollectionPath target = .ok cp)
    (hid : meta.getIdPropName target = .ok idp)
    (hrel : meta.relations.filter (fun r => r.target == target) = [])
    (w : Option FindConditions) (sel : Option (List String))
    (ordl : List (String × Bool)) (n : Nat) (hn : n ≠ 0)
    (hnd : ((st.getColl cp).map FsDoc.id).Nodup)
    (hne : ∀ d ∈ st.getColl cp, d.id ≠ "") :
    ∀ (fuel : Nat) (A B : List (String × FsDoc)) (l0 : String × FsDoc),
    sortedDocs st cp (clausesOf w) ordl = A ++ l0 :: B →
    B.length < fuel →
    pagesFrom cq meta st target fuel
      (jsonwebtokenSign
        { whereC := w, selectF := sel, order := some ordl, limit := some n,
          lastDocumentId := some l0.2.id } "fireorm")
      = .ok (B.map (pageEnt target idp sel)) := by
  intro fuel
  induction fuel with
  | zero => intro A B l0 _ hf; exact absurd hf (Nat.not_lt_zero _)
  | succ fuel ih =>
    intro A B l0 hS hf
    have hl0S : l0 ∈ sortedDocs st cp (clausesOf w) ordl := by
      rw [hS]
      exact List.mem_append_right _ (List.mem_cons_self _ _)
    obtain ⟨hl0cp, hl0mem⟩ := sortedDocs_mem hl0S
    have hneid : l0.2.id ≠ "" := hne _ hl0mem
    have hpw := sortedDocs_pairwise_lt st cp (clausesOf w) ordl hnd
    rw [hS] at hpw
    have hFBT : CollectionQuery.findByToken cq meta st target
        (jsonwebtokenSign
          { whereC := w, selectF := sel, order := some ordl, limit := some n,
            lastDocumentId := some l0.2.id } "fireorm")
      = CollectionQuery.findAndToken cq meta st target (.options
          { whereC := w, selectF := sel, order := some ordl, limit := some n,
            startAfter := some (st.getDoc cp l0.2.id) }) := by
      have hv : jsonwebtokenVerify (jsonwebtokenSign
          { whereC := w, selectF := sel, order := some ordl, limit := some n,
            lastDocumentId := some l0.2.id } "fireorm") "fireorm"
        = some
          { whereC := w, selectF := sel, order := some ordl, limit := some n,
            lastDocumentId := some l0.2.id } := by
        unfold jsonwebtokenVerify jsonwebtokenSign
        rw [if_pos rfl]
      simp only [CollectionQuery.findByToken, hv]
      rw [if_neg ?hcond]
      case hcond =>
        rintro (h | h)
        · exact Option.noConfusion h
        · exact hneid (Option.some.inj h)
      simp only [hcp, Option.getD_some]
      rw [getDoc_of_mem hnd hl0mem]
      rw [if_pos (show DocumentSnapshot.existsQ
        { collPath := cp, id := l0.2.id, fieldsOpt := some l0.2.fields } = true from rfl)]
    have hcases := @findAndToken_cases cq meta st target cp idp hcq hcp hid hrel
      { whereC := w, selectF := sel, order := some ordl, limit := some n,
        startAfter := some (st.getDoc cp l0.2.id) } _ _ rfl rfl
    dsimp only at hcases
    rw [applyMany_c2_cursor (.collection cp) (clausesOf w) w sel ordl (some n)
      (st.getDoc cp l0.2.id) (fun m hm => by cases hm; exact hn)] at hcases
    rw [runQuery_lim_cur st cp (clausesOf w) sel ordl n (st.getDoc cp l0.2.id)] at hcases
    rw [map_pageEnt] at hcases
    simp only [snapKey_getDoc hnd hl0mem] at hcases
    rw [hS] at hcases
    rw [filter_after_last A B l0 hpw] at hcases
    by_cases hBn : n ≤ B.length
    · have hlen : n ≤ ((B.take n).map (pageEnt target idp sel)).length := by
        rw [List.length_map, List.length_take]
        omega
      obtain ⟨s, hsLast, hEq⟩ := hcases.2 n rfl hn (fun hx => Option.noConfusion hx) hlen
      rw [List.getLast?_map] at hsLast
      cases hgl : (B.take n).getLast? with
      | none => rw [hgl] at hsLast; cases hsLast
      | some l1 =>
        rw [hgl] at hsLast
        have hsid := Option.some.inj hsLast
        subst hsid
        have hne1 : B.take n ≠ [] := by
          intro hx
          rw [hx] at hgl
          cases hgl
        have hgl2 : (B.take n).getLast hne1 = l1 := by
          have h3 := List.getLast?_eq_getLast (B.take n) hne1
          rw [h3] at hgl
          exact Option.some.inj hgl
        have hsplit : (B.take n).dropLast ++ [l1] = B.take n := by
          rw [← hgl2]
          exact List.dropLast_append_getLast hne1
        have hBsplit : B = (B.take n).dropLast ++ l1 :: (B.drop n) := by
          conv_lhs => rw [← List.take_append_drop n B]
          rw [← hsplit]
          simp
        have hS2 : sortedDocs st cp (clausesOf w) ordl
            = (A ++ l0 :: (B.take n).dropLast) ++ l1 :: (B.drop n) := by
          rw [hS]
          conv_lhs => rw [hBsplit]
          simp [List.append_assoc]
        have hf2 : (B.drop n).length < fuel := by
          rw [List.length_drop]
          omega
        have hpf := ih (A ++ l0 :: (B.take n).dropLast) (B.drop n) l1 hS2 hf2
        unfold pagesFrom
        rw [hFBT, hEq]
        show (match pagesFrom cq meta st target fuel
            (jsonwebtokenSign
              { whereC := w, selectF := sel, order := some ordl, limit := some n,
                lastDocumentId := some l1.2.id } "fireorm") with
          | Except.error e => (Except.error e : Except FireErr (List (Option Entity)))
          | Except.ok rest => Except.ok ((B.take n).map (pageEnt target idp sel) ++ rest))
          = Except.ok (B.map (pageEnt target idp sel))
        rw [hpf]
        show Except.ok ((B.take n).map (pageEnt target idp sel)
            ++ (B.drop n).map (pageEnt target idp sel))
          = (.ok (B.map (pageEnt target idp sel))
            : Except FireErr (List (Option Entity)))
        rw [← List.map_append, List.take_append_drop]
    · have hnotex : ¬ ∃ m, some n = some m ∧ m ≠ 0
          ∧ (some ordl ≠ (none : Option (List (String × Bool))))
          ∧ m ≤ ((B.take n).map (pageEnt target idp sel)).length := by
        rintro ⟨m, hm, hm0, _, hmlen⟩
        cases Option.some.inj hm
        rw [List.length_map, List.length_take] at hmlen
        omega
      have hEq := hcases.1 hnotex
      rw [List.take_of_length_le (Nat.le_of_lt (Nat.lt_of_not_le hBn))] at hEq
      unfold pagesFrom
      simp only [hFBT, hEq]

/-- C2: pagination-token round trip. Over an unchanged store (with a
registered collection and id property, no relations on the target, distinct
non-empty document ids), repeatedly following the token — the first page from
`findAndToken`, every further page from `findByToken` on the returned token —
concatenates to exactly the list `find` returns for the same
where/select/order shape without the limit: the same result set, in the same
order. -/
theorem c2_pagination_round_trip (cq : CollectionQuery) (meta : NestMetadataStorage)
    (st : Store) (target : FnVal) (cp idp : String)
    (hcq : cq.options = {}) (hcp : meta.getCollectionPath target = .ok cp)
    (hid : meta.getIdPropName target = .ok idp)
    (hrel : meta.relations.filter (fun r => r.target == target) = [])
    (w : Option FindConditions) (sel : Option (List String))
    (ordl : List (String × Bool)) (n : Nat) (hn : n ≠ 0) (rel : Option (List String))
    (hnd : ((st.getColl cp).map FsDoc.id).Nodup)
    (hne : ∀ d ∈ st.getColl cp, d.id ≠ "")
    (fuel : Nat) (hfuel : (st.getColl cp).length < fuel) :
    allPages cq meta st target (.options
        { whereC := w, selectF := sel, order := some ordl, limit := some n,
          relations := rel }) fuel
      = CollectionQuery.find cq meta st target (.options
        { whereC := w, selectF := sel, order := some ordl, relations := rel }) := by
  have hSlen : (sortedDocs st cp (clausesOf w) ordl).length ≤ (st.getColl cp).length := by
    have h1 : (sortedDocs st cp (clausesOf w) ordl).length
        = (filteredDocs st cp (clausesOf w)).length :=
      (List.perm_insertionSort _ _).length_eq
    have h2 : (filteredDocs st cp (clausesOf w)).length
        ≤ ((st.getColl cp).map (fun d => (cp, d))).length := List.length_filter_le _ _
    rw [List.length_map] at h2
    omega
  rw [find_plain hcq hcp hid hrel]
  dsimp only
  rw [applyMany_c2_nocursor (.collection cp) (clausesOf w) w sel ordl none rel
    (fun m hm => Option.noConfusion hm)]
  rw [runQuery_nolim_nocur st cp (clausesOf w) sel ordl]
  rw [map_pageEnt]
  have hcases := @findAndToken_cases cq meta st target cp idp hcq hcp hid hrel
    { whereC := w, selectF := sel, order := some ordl, limit := some n,
      relations := rel } _ _ rfl rfl
  dsimp only at hcases
  rw [applyMany_c2_nocursor (.collection cp) (clausesOf w) w sel ordl (some n) rel
    (fun m hm => by cases hm; exact hn)] at hcases
  rw [runQuery_lim_nocur st cp (clausesOf w) sel ordl n] at hcases
  rw [map_pageEnt] at hcases
  by_cases hSn : n ≤ (sortedDocs st cp (clausesOf w) ordl).length
  · have hlen : n ≤ (((sortedDocs st cp (clausesOf w) ordl).take n).map
        (pageEnt target idp sel)).length := by
      rw [List.length_map, List.length_take]
      omega
    obtain ⟨s, hsLast, hEq⟩ := hcases.2 n rfl hn (fun hx => Option.noConfusion hx) hlen
    rw [List.getLast?_map] at hsLast
    cases hgl : ((sortedDocs st cp (clausesOf w) ordl).take n).getLast? with
    | none => rw [hgl] at hsLast; cases hsLast
    | some l1 =>
      rw [hgl] at hsLast
      have hsid := Option.some.inj hsLast
      subst hsid
      have hne1 : (sortedDocs st cp (clausesOf w) ordl).take n ≠ [] := by
        intro hx
        have hlx := congrArg List.length hx
        rw [List.length_take, List.length_nil] at hlx
        omega
      have hgl2 : ((sortedDocs st cp (clausesOf w) ordl).take n).getLast hne1 = l1 := by
        have h3 := List.getLast?_eq_getLast
          ((sortedDocs st cp (clausesOf w) ordl).take n) hne1
        rw [h3] at hgl
        exact Option.some.inj hgl
      have hsplit : ((sortedDocs st cp (clausesOf w) ordl).take n).dropLast ++ [l1]
          = (sortedDocs st cp (clausesOf w) ordl).take n := by
        rw [← hgl2]
        exact List.dropLast_append_getLast hne1
      have hS2 : sortedDocs st cp (clausesOf w) ordl
          = ((sortedDocs st cp (clausesOf w) ordl).take n).dropLast
            ++ l1 :: ((sortedDocs st cp (clausesOf w) ordl).drop n) := by
        conv_lhs => rw [← List.take_append_drop n (sortedDocs st cp (clausesOf w) ordl)]
        rw [← hsplit]
        simp
      have hf2 : ((sortedDocs st cp (clausesOf w) ordl).drop n).length < fuel := by
        rw [List.length_drop]
        omega
      have hpf := pagesFrom_c2 hcq hcp hid hrel w sel ordl n hn hnd hne fuel
        (((sortedDocs st cp (clausesOf w) ordl).take n).dropLast)
        ((sortedDocs st cp (clausesOf w) ordl).drop n) l1 hS2 hf2
      unfold allPages
      rw [hEq]
      show (match pagesFrom cq meta st target fuel
          (jsonwebtokenSign
            { whereC := w, selectF := sel, order := some ordl, limit := some n,
              lastDocumentId := some l1.2.id } "fireorm") with
        | Except.error e => (Except.error e : Except FireErr (List (Option Entity)))
        | Except.ok rest => Except.ok
            (((sortedDocs st cp (clausesOf w) ordl).take n).map (pageEnt target idp sel)
              ++ rest))
        = Except.ok ((sortedDocs st cp (clausesOf w) ordl).map (pageEnt target idp sel))
      rw [hpf]
      show Except.ok
          (((sortedDocs st cp (clausesOf w) ordl).take n).map (pageEnt target idp sel)
            ++ ((sortedDocs st cp (clausesOf w) ordl).drop n).map (pageEnt target idp sel))
        = (Except.ok ((sortedDocs st cp (clausesOf w) ordl).map (pageEnt target idp sel))
          : Except FireErr (List (Option Entity)))
      rw [← List.map_append, List.take_append_drop]
  · have hnotex : ¬ ∃ m, some n = some m ∧ m ≠ 0
        ∧ (some ordl ≠ (none : Option (List (String × Bool))))
        ∧ m ≤ (((sortedDocs st cp (clausesOf w) ordl).take n).map
            (pageEnt target idp sel)).length := by
      rintro ⟨m, hm, hm0, _, hmlen⟩
      cases Option.some.inj hm
      rw [List.length_map, List.length_take] at hmlen
      omega
    have hEq := hcases.1 hnotex
    rw [List.take_of_length_le (Nat.le_of_lt (Nat.lt_of_not_le hSn))] at hEq
    unfold allPages
    simp only [hEq]

theorem c2_pagination_round_trip_witness :
    allPages {} wPageMeta wPageStore (.cls "User") (.options
        { whereC := none, selectF := none, order := some [("age", false)],
          limit := some 2, relations := none }) 5
      = CollectionQuery.find {} wPageMeta wPageStore (.cls "User") (.options
        { whereC := none, selectF := none, order := some [("age", false)],
          relations := none }) :=
  c2_pagination_round_trip {} wPageMeta wPageStore (.cls "User") "users" "id"
    rfl (by decide) (by decide) (by decide) none none [("age", false)] 2 (by decide)
    none (by decide) (by decide) 5 (by decide)
